import Mathlib

/-!
SSD1306 text-mode driver (`ossd_i2c.cpp`): shallow embedding.

The driver keeps one byte of state (`_mode`, the tracked addressing mode) and
talks to the display through I2C transactions.  The embedding threads a `Dev`
value through every routine: the tracked mode and the list of transactions the
driver handed to the transport, oldest first.

Machine integers are `Nat` / `Int`; every place where the C code narrows a value
to 8 or 16 bits is written with an explicit cast (`u8`, `i8`, `u16`).
Values of type `uint8_t` that are only passed along are plain `Nat`s below 256.
-/

namespace OSSD

/-! ## Constants of `ossd_i2c.cpp` -/

def OSSD_CMD : Nat := 0x00
def OSSD_DATA : Nat := 0x40
def OSSD_SET_ADDR_MODE : Nat := 0x20
def OSSD_ADDR_MODE_PAGE : Nat := 0x10
def OSSD_ADDR_MODE_HOR : Nat := 0x00
def OSSD_ADDR_MODE_VER : Nat := 0x01
def OSSD_SET_COL_ADDR : Nat := 0x21
def OSSD_SET_PAGE_ADDR : Nat := 0x22
def OSSD_SET_START_LINE : Nat := 0x40
def OSSD_SET_START_PAGE : Nat := 0xB0
def OSSD_SET_START_LCOL : Nat := 0x00
def OSSD_SET_START_HCOL : Nat := 0x10
def OSSD_SET_MUX_RATIO : Nat := 0xA8
def OSSD_SET_DISP_OFFSET : Nat := 0xD3
def OSSD_SET_CONTRAST : Nat := 0x81
def OSSD_SET_SEG_REMAP : Nat := 0xA0
def OSSD_SEG_REMAP_R2L : Nat := 0x01
def OSSD_SET_COM_DIR : Nat := 0xC0
def OSSD_COM_DIR_UPDOWN : Nat := 0x08
def OSSD_SET_COM_CONFIG : Nat := 0xDA
def OSSD_COM_ALT : Nat := 0x12
def OSSD_SET_SLEEP_ON : Nat := 0xAE
def OSSD_SET_SLEEP_OFF : Nat := 0xAF
def OSSD_SET_INVERSE_OFF : Nat := 0xA6
def OSSD_SET_OUTPUT_RAM : Nat := 0xA4
def OSSD_SET_DISP_CLOCK : Nat := 0xD5
def OSSD_SET_PRECHARGE : Nat := 0xD9
def OSSD_SET_VCOMH_LEVEL : Nat := 0xDB
def OSSD_VCOMH_L077 : Nat := 0x20
def OSSD_SET_CHARGE_PUMP : Nat := 0x8D
def OSSD_CHARGE_PUMP_ON : Nat := 0x14

/-! ## Integer casts -/

/-- Conversion to `uint8_t`. -/
def u8 (n : Int) : Nat := (n % 256).toNat

/-- Conversion to `int8_t` (two's complement wrap). -/
def i8 (n : Int) : Int := (n + 128) % 256 - 128

/-- Conversion to `uint16_t`. -/
def u16 (n : Int) : Nat := (n % 65536).toNat

/-! ## External collaborators -/

/-- The font descriptor returned by `bmfont_get()` (declared in `bmfont.h`):
glyph width, glyph height, code of the first glyph, and the bitmap table read
with `pgm_read_byte`.  The three scalar fields are `uint8_t`. -/
structure bmfont_t where
  gw : Nat
  gh : Nat
  go : Nat
  font : Nat → Nat

/-- Everything the driver takes from outside this file: the current font, the
attribute masks of `ossd_i2c.h`, and the transport.  `busy n` tells whether
`i2c_start_ex` fails (times out) for the transaction number `n`, counted from
program start. -/
structure Env where
  bmfont : bmfont_t
  TEXT_REVERSE : Nat
  TEXT_OVERLINE : Nat
  TEXT_UNDERLINE : Nat
  busy : Nat → Bool

/-- Driver state together with the transport history.  `mode` is the static
`_mode`; `log` lists the transactions handed to the transport in order, each
as its byte sequence (selector byte first).  Transaction `n` reaches the
device exactly when `busy n` is false. -/
structure Dev where
  mode : Nat
  log : List (List Nat)
deriving DecidableEq, Repr

/-- One framed transaction: `i2c_start_ex`, the bytes, `i2c_stop`.  The result
is `true` when the start failed. -/
def i2c_transaction (e : Env) (s : Dev) (bytes : List Nat) : Dev × Bool :=
  ({ s with log := s.log ++ [bytes] }, e.busy s.log.length)

/-- The transactions of a log that reach the device. -/
def wire (e : Env) (log : List (List Nat)) : List (List Nat) :=
  (log.enum.filter (fun p => !e.busy p.1)).map Prod.snd

/-! ## Transport primitives -/

def ossd_send_byte (e : Env) (s : Dev) (dc data : Nat) : Dev × Int :=
  let r := i2c_transaction e s [dc, data]
  if r.2 then (r.1, -1) else (r.1, 0)

def ossd_cmd_arg (e : Env) (s : Dev) (cmd arg : Nat) : Dev × Int :=
  let r := i2c_transaction e s [OSSD_CMD, cmd, arg]
  if r.2 then (r.1, -1) else (r.1, 0)

def ossd_cmd_arg2 (e : Env) (s : Dev) (cmd arg1 arg2 : Nat) : Dev :=
  (i2c_transaction e s [OSSD_CMD, cmd, arg1, arg2]).1

def ossd_fill_line (e : Env) (s : Dev) (data num : Nat) : Dev :=
  (i2c_transaction e s (OSSD_DATA :: List.replicate num data)).1

def ossd_cmd (e : Env) (s : Dev) (cmd : Nat) : Dev × Int :=
  ossd_send_byte e s OSSD_CMD cmd

def ossd_write (e : Env) (s : Dev) (data : Nat) : Dev × Int :=
  ossd_send_byte e s OSSD_DATA data

/-! ## Addressing controller -/

def ossd_set_addr_mode (e : Env) (s : Dev) (set_mode : Nat) : Dev × Nat :=
  let ret := s.mode
  if s.mode ≠ set_mode then
    let s1 := (ossd_cmd_arg e s OSSD_SET_ADDR_MODE set_mode).1
    let s2 :=
      if set_mode = OSSD_ADDR_MODE_PAGE then
        ossd_cmd_arg2 e (ossd_cmd_arg2 e s1 OSSD_SET_PAGE_ADDR 0 7) OSSD_SET_COL_ADDR 0 127
      else s1
    ({ s2 with mode := set_mode }, ret)
  else (s, ret)

def ossd_goto (e : Env) (s : Dev) (line x : Nat) : Dev :=
  if s.mode = OSSD_ADDR_MODE_PAGE then
    let s1 := (ossd_cmd e s (OSSD_SET_START_PAGE ||| (line &&& 0x07))).1
    let s2 := (ossd_cmd e s1 (OSSD_SET_START_LCOL ||| (x &&& 0x0F))).1
    (ossd_cmd e s2 (OSSD_SET_START_HCOL ||| (x >>> 4))).1
  else
    let gw := e.bmfont.gw
    let s1 := ossd_cmd_arg2 e s OSSD_SET_COL_ADDR x (u8 ((x : Int) + gw - 1))
    ossd_cmd_arg2 e s1 OSSD_SET_PAGE_ADDR line (u8 ((line : Int) + 1))

def ossd_fill_screen (e : Env) (s : Dev) (data : Nat) : Dev :=
  (List.range 8).foldl (fun s line => ossd_fill_line e (ossd_goto e s line 0) data 128) s

/-- The byte written for index `i` of a glyph whose table offset is `idx`
(body of the inner loop of `ossd_putlx`). -/
def glyph_byte (e : Env) (atr : Nat) (idx i : Nat) : Nat :=
  let rev := if atr &&& e.TEXT_REVERSE ≠ 0 then u8 (-1) else 0
  let over := if atr &&& e.TEXT_OVERLINE ≠ 0 then 0x01 else 0
  let under := if atr &&& e.TEXT_UNDERLINE ≠ 0 then 0x80 else 0
  let gw := e.bmfont.gw
  let gh := e.bmfont.gh
  let d := e.bmfont.font ((idx + i) % 65536)
  let d := d ^^^ rev
  let d := if under ≠ 0 ∧ (gh = 8 ∨ (i : Int) > (gw : Int) - 1) then d ^^^ under else d
  let d := if i < gw then d ^^^ over else d
  d

/-- The `for (; *str != 0; str++, x += gw)` loop of `ossd_putlx`. -/
def putlx_loop (e : Env) (atr : Nat) : Dev → Nat → Int → List Int → Dev
  | s, _, _, [] => s
  | s, line, x, c :: str =>
    if c = 0 then s
    else
      let gw := e.bmfont.gw
      let gh := e.bmfont.gh
      let go := e.bmfont.go
      let gb := (gw * (gh / 8)) % 256
      let idx := u16 ((c - (go : Int)) * (gb : Int))
      let wrap : Bool := decide ((u8 x : Int) > 128 - (gw : Int))
      let x1 : Int := if wrap then 0 else x
      let line1 := if wrap then (line + (gh + 7) / 8) &&& 0x07 else line
      let s1 := ossd_goto e s line1 (u8 x1)
      let s2 := (List.range gb).foldl (fun s i => (ossd_write e s (glyph_byte e atr idx i)).1) s1
      putlx_loop e atr s2 line1 (i8 (x1 + gw)) str

/-- Lines 303-337 of `ossd_putlx`: the left-to-right draw, entered with the
masked line and a non-negative `x`. -/
def ossd_putlx_draw (e : Env) (s : Dev) (line : Nat) (x : Int) (str : List Int) (atr : Nat) : Dev :=
  let r := ossd_set_addr_mode e s OSSD_ADDR_MODE_HOR
  let cmode := r.2
  let s1 := putlx_loop e atr r.1 line x str
  (ossd_set_addr_mode e s1 cmode).1

/-- The length loop of `ossd_put_centre`,
`for (len = 0; str[x]; len += gw, x++);`, with `x` a `uint8_t` and `len` a
`uint16_t`.  `none` when the fuel runs out. -/
def centre_scan (gw : Nat) (str : List Int) : Nat → Nat → Nat → Option (Nat × Nat)
  | 0, _, _ => none
  | fuel + 1, x, len =>
    if str.getD x 0 ≠ 0 then centre_scan gw str fuel ((x + 1) % 256) ((len + gw) % 65536)
    else some (x, len)

/-- The margin loops of `ossd_put_centre`:
`for (i = 0; i < (gh+7)/8; i++) { ossd_goto(line + i, col); ossd_fill_line(0, x); }`. -/
def centre_clear (e : Env) (s : Dev) (line col x : Nat) : Dev :=
  (List.range ((e.bmfont.gh + 7) / 8)).foldl
    (fun s (i : Nat) => ossd_fill_line e (ossd_goto e s (u8 ((line : Int) + i)) col) 0 x) s

/-- Embedding of `ossd_put_centre`; `putlx` is the recursive call of `ossd_putlx`. -/
def ossd_put_centre (e : Env) (putlx : Dev → Nat → Int → List Int → Nat → Option Dev)
    (fuel : Nat) (s : Dev) (line : Nat) (str : List Int) (atr : Nat) : Option Dev :=
  match centre_scan e.bmfont.gw str fuel 0 0 with
  | none => none
  | some (_, len) =>
    let x := if len > 128 then 0 else (128 - len) / 2
    let s1 := if x ≠ 0 then centre_clear e s line 0 x else s
    match putlx s1 line (i8 x) str atr with
    | none => none
    | some s2 =>
      some (if x ≠ 0 then centre_clear e s2 line (u8 ((x : Int) + len)) x else s2)

/-- Embedding of `ossd_putlx`.  The fuel bounds the call depth and the length
loop of the centred path; `none` means it ran out. -/
def ossd_putlx (e : Env) : Nat → Dev → Nat → Int → List Int → Nat → Option Dev
  | 0, _, _, _, _, _ => none
  | fuel + 1, s, line, x, str, atr =>
    let line := line &&& 0x07
    if x < 0 then ossd_put_centre e (ossd_putlx e fuel) fuel s line str atr
    else some (ossd_putlx_draw e s line x str atr)

/-- Embedding of `ossd_putcx`: the two-byte buffer `{ch, 0}` read as `char`s. -/
def ossd_putcx (e : Env) (fuel : Nat) (s : Dev) (line : Nat) (x : Int) (ch : Nat) (atr : Nat) :
    Option Dev :=
  ossd_putlx e fuel s line x [i8 ch, 0] atr

/-! ## Controller lifecycle -/

def ossd_init (e : Env) (s : Dev) (orientation : Nat) : Dev × Int :=
  let s := { s with mode := 0xFF }
  let r := ossd_cmd e s OSSD_SET_SLEEP_ON
  if r.2 ≠ 0 then (r.1, -1)
  else
    let s := r.1
    let s := (ossd_cmd_arg e s OSSD_SET_MUX_RATIO 63).1
    let s := (ossd_cmd_arg e s OSSD_SET_DISP_OFFSET 0).1
    let s := (ossd_cmd e s (OSSD_SET_START_LINE ||| 0)).1
    let s := (ossd_cmd e s (OSSD_SET_SEG_REMAP ||| (orientation &&& OSSD_SEG_REMAP_R2L))).1
    let s := (ossd_cmd e s (OSSD_SET_COM_DIR ||| (orientation &&& OSSD_COM_DIR_UPDOWN))).1
    let s := (ossd_cmd_arg e s OSSD_SET_COM_CONFIG OSSD_COM_ALT).1
    let s := (ossd_cmd_arg e s OSSD_SET_CONTRAST 64).1
    let s := (ossd_cmd e s OSSD_SET_OUTPUT_RAM).1
    let s := (ossd_cmd_arg e s OSSD_SET_DISP_CLOCK 0x80).1
    let s := (ossd_cmd_arg e s OSSD_SET_PRECHARGE 0x22).1
    let s := (ossd_cmd_arg e s OSSD_SET_VCOMH_LEVEL OSSD_VCOMH_L077).1
    let s := (ossd_cmd e s OSSD_SET_INVERSE_OFF).1
    let s := (ossd_cmd_arg e s OSSD_SET_CHARGE_PUMP OSSD_CHARGE_PUMP_ON).1
    let s := (ossd_set_addr_mode e s OSSD_ADDR_MODE_PAGE).1
    let s := ossd_fill_screen e s 0
    let s := (ossd_cmd e s OSSD_SET_SLEEP_OFF).1
    let s := ossd_goto e s 0 0
    (s, 0)

/-! ## Descriptions used in the statements

Transaction lists and layouts written out as plain functions, the string
helpers, the specified layout rule, and the test fixtures. -/

/-- The transactions `ossd_goto` produces, as a function of the tracked mode. -/
def goto_txs (e : Env) (mode line x : Nat) : List (List Nat) :=
  if mode = 0x10 then
    [[0, 0xB0 ||| (line &&& 0x07)], [0, x &&& 0x0F], [0, 0x10 ||| (x >>> 4)]]
  else
    [[0, 0x21, x, u8 ((x : Int) + e.bmfont.gw - 1)], [0, 0x22, line, u8 ((line : Int) + 1)]]

/-- The transactions `ossd_set_addr_mode` produces. -/
def mode_txs (mode set_mode : Nat) : List (List Nat) :=
  if mode = set_mode then []
  else [0, 0x20, set_mode] :: (if set_mode = 0x10 then [[0, 0x22, 0, 7], [0, 0x21, 0, 127]] else [])

/-- Bytes per glyph as `ossd_putlx` computes it (`uint8_t gb = gw*(gh / 8)`). -/
def glyph_gb (e : Env) : Nat := (e.bmfont.gw * (e.bmfont.gh / 8)) % 256

/-- Table offset of the glyph of `c` (`uint16_t idx = (*str - go) * gb`). -/
def glyph_idx (e : Env) (c : Int) : Nat := u16 ((c - (e.bmfont.go : Int)) * (glyph_gb e : Int))

/-- The data transactions of one glyph. -/
def glyph_txs (e : Env) (atr : Nat) (c : Int) : List (List Nat) :=
  (List.range (glyph_gb e)).map (fun i => [0x40, glyph_byte e atr (glyph_idx e c) i])

/-- The cursor positions `(line, column, char)` at which the loop of `ossd_putlx`
draws its glyphs; the same wrap computation as `putlx_loop`. -/
def putlx_places (e : Env) : Nat → Int → List Int → List (Nat × Nat × Int)
  | _, _, [] => []
  | line, x, c :: str =>
    if c = 0 then []
    else
      let wrap : Bool := decide ((u8 x : Int) > 128 - (e.bmfont.gw : Int))
      let x1 : Int := if wrap then 0 else x
      let line1 := if wrap then (line + (e.bmfont.gh + 7) / 8) &&& 0x07 else line
      (line1, u8 x1, c) :: putlx_places e line1 (i8 (x1 + e.bmfont.gw)) str

/-- Everything sent for one glyph: cursor positioning, then the glyph bytes. -/
def place_txs (e : Env) (atr mode : Nat) (p : Nat × Nat × Int) : List (List Nat) :=
  goto_txs e mode p.1 p.2.1 ++ glyph_txs e atr p.2.2

/-- The transactions of one margin-clearing loop of `ossd_put_centre`. -/
def clear_txs (e : Env) (mode line col x : Nat) : List (List Nat) :=
  (List.range ((e.bmfont.gh + 7) / 8)).flatMap
    (fun (i : Nat) => goto_txs e mode (u8 ((line : Int) + i)) col ++ [0x40 :: List.replicate x 0])

/-- Number of characters before the terminating NUL. -/
def strlen : List Int → Nat
  | [] => 0
  | c :: str => if c = 0 then 0 else strlen str + 1

/-- Start column chosen by `ossd_put_centre` for a pixel length `len`. -/
def centre_x (len : Nat) : Nat := if len > 128 then 0 else (128 - len) / 2

/-- A 6x8 test font with first glyph 0x20 and a synthetic bitmap table, the
attribute masks 1, 2, 4, and a transport that never fails. -/
def env6x8 : Env :=
  { bmfont := { gw := 6, gh := 8, go := 32, font := fun n => n % 256 }
    TEXT_REVERSE := 1
    TEXT_OVERLINE := 2
    TEXT_UNDERLINE := 4
    busy := fun _ => false }

/-- The layout rule in the words of the specification, over plain naturals:
before each glyph, wrap iff the running `x` exceeds `128 - W`; a wrap puts the
glyph at column 0 of line `(line + bands) mod 8`; otherwise the glyph is drawn
at the running `(line, x)`; afterwards `x` advances by `W`. -/
def spec_layout (W bands : Nat) : Nat → Nat → List Int → List (Nat × Nat × Int)
  | _, _, [] => []
  | line, x, c :: str =>
    if c = 0 then []
    else
      let wrap : Bool := decide (x > 128 - W)
      let x1 := if wrap then 0 else x
      let line1 := if wrap then (line + bands) % 8 else line
      (line1, x1, c) :: spec_layout W bands line1 (x1 + W) str

/-- The transactions of a complete `ossd_init`, in order, for orientation `o`. -/
def init_txs (o : Nat) : List (List Nat) :=
  [[0x00, 0xAE], [0x00, 0xA8, 0x3F], [0x00, 0xD3, 0x00], [0x00, 0x40],
   [0x00, 0xA0 ||| (o &&& 0x01)], [0x00, 0xC0 ||| (o &&& 0x08)],
   [0x00, 0xDA, 0x12], [0x00, 0x81, 0x40], [0x00, 0xA4], [0x00, 0xD5, 0x80],
   [0x00, 0xD9, 0x22], [0x00, 0xDB, 0x20], [0x00, 0xA6], [0x00, 0x8D, 0x14],
   [0x00, 0x20, 0x10], [0x00, 0x22, 0x00, 0x07], [0x00, 0x21, 0x00, 0x7F]]
  ++ (List.range 8).flatMap
      (fun p => [[0x00, 0xB0 ||| p], [0x00, 0x00], [0x00, 0x10], 0x40 :: List.replicate 128 0])
  ++ [[0x00, 0xAF], [0x00, 0xB0], [0x00, 0x00], [0x00, 0x10]]

/-- The characters of a C string before its terminating NUL. -/
def chars : List Int → List Int
  | [] => []
  | c :: str => if c = 0 then [] else c :: chars str

/-- The data transactions (selector byte 0x40) of a list of transactions. -/
def data_txs (log : List (List Nat)) : List (List Nat) :=
  log.filter (fun t => decide (t.head? = some 0x40))

/-- The pixel bytes carried by the data transactions of a list of transactions. -/
def data_bytes (log : List (List Nat)) : List Nat :=
  (data_txs log).flatMap List.tail

/-- The bytes written for the glyph of `c`, in the order written. -/
def glyph_bytes (e : Env) (atr : Nat) (c : Int) : List Nat :=
  (List.range (glyph_gb e)).map (glyph_byte e atr (glyph_idx e c))

/-- A font three row-bands tall (6x24), otherwise like `env6x8`. -/
def env6x24 : Env :=
  { env6x8 with bmfont := { gw := 6, gh := 24, go := 32, font := fun n => n % 256 } }

/-- A font whose glyphs take 256 bytes (128x16), otherwise like `env6x8`. -/
def env128x16 : Env :=
  { env6x8 with bmfont := { gw := 128, gh := 16, go := 32, font := fun n => n % 256 } }

/-- The fixture `env6x8` with a transport whose transaction number 2 fails. -/
def env6x8_fail2 : Env := { env6x8 with busy := fun n => decide (n = 2) }

/-- An 8x16 test font (two row-bands), otherwise like `env6x8`. -/
def env8x16 : Env :=
  { env6x8 with bmfont := { gw := 8, gh := 16, go := 32, font := fun n => n % 256 } }

end OSSD

namespace CLI

/-! ## Line command interpreter (`cli.cpp`)

A command line is the `List Char` of its characters before the terminating
NUL.  Console output (`printf_P`, `puts_P`, `print_status`, `print_hist`) is
not part of the model. -/

/-- What `cli.cpp` takes from headers that are not part of the sources: the
command buffer length `CMD_LEN`, the bits of the `flags` byte (`main.h`), the
result codes of `serial_cli.h`, and `atoi` of the C library. -/
structure Consts where
  CMD_LEN : Nat
  CONFIG_MODE : Nat
  ECHO_RHT : Nat
  ECHO_THIST : Nat
  VERBOSE_MODE : Nat
  CLI_EARG : Int
  CLI_ENOTSUP : Int
  atoi : List Char → Int

/-- Modelled from the spec: `get_arg` of the `serial_cli` module, which is not
among the sources.  The spec says the interpreter "tokenizes an input line into
a command and argument": the string is cut at its first blank; the part before
the blank stays as the word, the part after it is the argument, empty when
there is no blank. -/
def get_arg (str : List Char) : List Char × List Char :=
  (str.takeWhile (fun c => decide (c ≠ ' ')), (str.dropWhile (fun c => decide (c ≠ ' '))).drop 1)

/-- Modelled from the spec: `str_is` of the `serial_cli` module, the test that
a token is the given command or argument word. -/
def str_is (str : List Char) (word : String) : Bool := decide (str = word.toList)

/-- Outcome of `cli_proc`: the value returned, the `flags` byte afterwards, and
the value handed to `set_gauge` when it was called. -/
structure Result where
  ret : Int
  flags : Nat
  gauge : Option Nat
deriving DecidableEq, Repr

/-- Embedding of `cli_proc`.  `flags |= m` is `flags ||| m`, `flags &= ~m` clears
the bits of `m` (`flags ^^^ (flags &&& m)`), both on a `uint8_t`; `memcpy(cmd,
buf, sizeof(cmd))` keeps the first `CMD_LEN + 1` characters. -/
def cli_proc (k : Consts) (flags : Nat) (buf : List Char) : Result :=
  let p := get_arg (buf.take (k.CMD_LEN + 1))
  let cmd := p.1
  let arg := p.2
  if str_is cmd "help" then ⟨0, flags, none⟩
  else if str_is cmd "config" then
    if str_is arg "on" then ⟨0, (flags ||| k.CONFIG_MODE) % 256, none⟩
    else if str_is arg "off" then ⟨0, flags ^^^ (flags &&& k.CONFIG_MODE), none⟩
    else ⟨0, flags, none⟩
  else if str_is cmd "status" then ⟨0, flags, none⟩
  else if str_is cmd "print" then
    if !str_is arg "history" then ⟨k.CLI_EARG, flags, none⟩
    else ⟨0, flags, none⟩
  else if str_is cmd "set" then
    let q := get_arg arg
    let val := q.2
    if str_is q.1 "gauge" then
      if flags &&& k.CONFIG_MODE ≠ 0 then ⟨0, flags, some ((k.atoi val % 256).toNat)⟩
      else ⟨0, flags, none⟩
    else ⟨k.CLI_EARG, flags, none⟩
  else if str_is cmd "echo" then
    if arg = [] then ⟨0, flags, none⟩
    else
      let q := get_arg arg
      let on_arg := q.2
      if str_is q.1 "off" then
        ⟨0, flags &&& (k.ECHO_RHT ||| k.ECHO_THIST ||| k.VERBOSE_MODE), none⟩
      else
        let set := 0
        let set := if str_is q.1 "rht" then k.ECHO_RHT % 256 else set
        let set := if str_is q.1 "thist" then k.ECHO_THIST % 256 else set
        let set := if str_is q.1 "verbose" then k.VERBOSE_MODE % 256 else set
        if set = 0 then ⟨k.CLI_EARG, flags, none⟩
        else if str_is on_arg "on" then ⟨0, (flags ||| set) % 256, none⟩
        else if str_is on_arg "off" then ⟨0, flags ^^^ (flags &&& set), none⟩
        else ⟨k.CLI_EARG, flags, none⟩
  else if str_is cmd "mem" then ⟨0, flags, none⟩
  else ⟨k.CLI_ENOTSUP, flags, none⟩

/-- Test constants: a 127-character command buffer, one bit per flag, negative
result codes, and an `atoi` that reads leading decimal digits. -/
def consts0 : Consts :=
  { CMD_LEN := 127
    CONFIG_MODE := 0x80
    ECHO_RHT := 0x01
    ECHO_THIST := 0x02
    VERBOSE_MODE := 0x04
    CLI_EARG := -1
    CLI_ENOTSUP := -2
    atoi := fun s =>
      ((s.takeWhile Char.isDigit).foldl (fun n c => 10 * n + (c.toNat - 48)) 0 : Nat) }

/-- Modelled from the spec: the result codes of `serial_cli.h`, a header that
is not among the sources.  The spec says of the argument error that it is
"reported as a distinct result code from 'unsupported command'": these are the
constants of `cli.cpp` together with the fact that `CLI_EARG` and
`CLI_ENOTSUP` are different codes. -/
structure CodedConsts extends Consts where
  distinct : CLI_EARG ≠ CLI_ENOTSUP

/-- The test constants `consts0`, whose two result codes -1 and -2 differ. -/
def consts0c : CodedConsts := { toConsts := consts0, distinct := by decide }

end CLI

namespace OSSD

/-! ## Effect of the primitives on the state -/

theorem i2c_transaction_fst (e : Env) (s : Dev) (b : List Nat) :
    (i2c_transaction e s b).1 = ⟨s.mode, s.log ++ [b]⟩ := rfl

theorem i2c_transaction_snd (e : Env) (s : Dev) (b : List Nat) :
    (i2c_transaction e s b).2 = e.busy s.log.length := rfl

theorem ossd_send_byte_fst (e : Env) (s : Dev) (dc d : Nat) :
    (ossd_send_byte e s dc d).1 = ⟨s.mode, s.log ++ [[dc, d]]⟩ := by
  unfold ossd_send_byte
  simp only [i2c_transaction_fst]
  split <;> rfl

theorem ossd_send_byte_snd (e : Env) (s : Dev) (dc d : Nat) :
    (ossd_send_byte e s dc d).2 = if e.busy s.log.length then -1 else 0 := by
  unfold ossd_send_byte
  simp only [i2c_transaction_snd]
  split <;> rfl

theorem ossd_cmd_fst (e : Env) (s : Dev) (c : Nat) :
    (ossd_cmd e s c).1 = ⟨s.mode, s.log ++ [[0, c]]⟩ :=
  ossd_send_byte_fst e s 0 c

theorem ossd_cmd_snd (e : Env) (s : Dev) (c : Nat) :
    (ossd_cmd e s c).2 = if e.busy s.log.length then -1 else 0 :=
  ossd_send_byte_snd e s 0 c

theorem ossd_write_fst (e : Env) (s : Dev) (d : Nat) :
    (ossd_write e s d).1 = ⟨s.mode, s.log ++ [[0x40, d]]⟩ :=
  ossd_send_byte_fst e s 0x40 d

theorem ossd_cmd_arg_fst (e : Env) (s : Dev) (c a : Nat) :
    (ossd_cmd_arg e s c a).1 = ⟨s.mode, s.log ++ [[0, c, a]]⟩ := by
  unfold ossd_cmd_arg
  simp only [i2c_transaction_fst]
  split <;> rfl

theorem ossd_cmd_arg2_eq (e : Env) (s : Dev) (c a b : Nat) :
    ossd_cmd_arg2 e s c a b = ⟨s.mode, s.log ++ [[0, c, a, b]]⟩ := rfl

theorem ossd_fill_line_eq (e : Env) (s : Dev) (d n : Nat) :
    ossd_fill_line e s d n = ⟨s.mode, s.log ++ [0x40 :: List.replicate n d]⟩ := rfl

theorem ossd_goto_eq (e : Env) (s : Dev) (line x : Nat) :
    ossd_goto e s line x = ⟨s.mode, s.log ++ goto_txs e s.mode line x⟩ := by
  unfold ossd_goto goto_txs
  by_cases h : s.mode = 0x10
  · simp [h, OSSD_ADDR_MODE_PAGE, ossd_cmd_fst, OSSD_SET_START_PAGE, OSSD_SET_START_LCOL,
      OSSD_SET_START_HCOL]
  · simp [h, OSSD_ADDR_MODE_PAGE, ossd_cmd_arg2_eq, OSSD_SET_COL_ADDR, OSSD_SET_PAGE_ADDR]

theorem ossd_set_addr_mode_fst (e : Env) (s : Dev) (m : Nat) :
    (ossd_set_addr_mode e s m).1 = ⟨m, s.log ++ mode_txs s.mode m⟩ := by
  unfold ossd_set_addr_mode mode_txs
  by_cases h : s.mode = m
  · subst h; simp
  · by_cases hp : m = 0x10
    · subst hp
      simp [h, OSSD_ADDR_MODE_PAGE, ossd_cmd_arg2_eq, ossd_cmd_arg_fst, OSSD_SET_ADDR_MODE,
        OSSD_SET_PAGE_ADDR, OSSD_SET_COL_ADDR]
    · simp [h, hp, OSSD_ADDR_MODE_PAGE, ossd_cmd_arg_fst, OSSD_SET_ADDR_MODE]

theorem ossd_set_addr_mode_snd (e : Env) (s : Dev) (m : Nat) :
    (ossd_set_addr_mode e s m).2 = s.mode := by
  unfold ossd_set_addr_mode
  split <;> rfl

/-! ## The transactions of a text draw -/

theorem foldl_write_eq (e : Env) (f : Nat → Nat) (l : List Nat) (s : Dev) :
    l.foldl (fun s i => (ossd_write e s (f i)).1) s
      = ⟨s.mode, s.log ++ l.map (fun i => [0x40, f i])⟩ := by
  induction l generalizing s with
  | nil => simp
  | cons a l ih =>
    rw [List.foldl_cons, ih]
    simp [ossd_write_fst]

theorem putlx_loop_eq (e : Env) (atr : Nat) (str : List Int) (s : Dev) (line : Nat) (x : Int) :
    putlx_loop e atr s line x str
      = ⟨s.mode, s.log ++ (putlx_places e line x str).flatMap (place_txs e atr s.mode)⟩ := by
  induction str generalizing s line x with
  | nil => simp [putlx_loop, putlx_places]
  | cons c str ih =>
    unfold putlx_loop putlx_places
    by_cases hc : c = 0
    · simp [hc]
    · simp only [hc, if_false]
      rw [ih, foldl_write_eq, ossd_goto_eq]
      simp [place_txs, glyph_txs, glyph_gb, glyph_idx, List.append_assoc]

theorem ossd_putlx_draw_eq (e : Env) (s : Dev) (line : Nat) (x : Int) (str : List Int)
    (atr : Nat) :
    ossd_putlx_draw e s line x str atr
      = ⟨s.mode, s.log ++ (mode_txs s.mode 0
          ++ ((putlx_places e line x str).flatMap (place_txs e atr 0) ++ mode_txs 0 s.mode))⟩ := by
  unfold ossd_putlx_draw
  simp [ossd_set_addr_mode_fst, ossd_set_addr_mode_snd, putlx_loop_eq, OSSD_ADDR_MODE_HOR,
    List.append_assoc]

theorem foldl_clear_eq (e : Env) (line col x : Nat) (l : List Nat) (s : Dev) :
    l.foldl (fun s (i : Nat) => ossd_fill_line e (ossd_goto e s (u8 ((line : Int) + i)) col) 0 x) s
      = ⟨s.mode, s.log ++ l.flatMap
          (fun (i : Nat) => goto_txs e s.mode (u8 ((line : Int) + i)) col ++ [0x40 :: List.replicate x 0])⟩ := by
  induction l generalizing s with
  | nil => simp
  | cons a l ih =>
    rw [List.foldl_cons, ih]
    simp [ossd_fill_line_eq, ossd_goto_eq, List.append_assoc]

theorem centre_clear_eq (e : Env) (s : Dev) (line col x : Nat) :
    centre_clear e s line col x = ⟨s.mode, s.log ++ clear_txs e s.mode line col x⟩ :=
  foldl_clear_eq e line col x _ s

/-! ## The length loop of the centred draw -/

theorem getD_ne_zero_of_lt_strlen (str : List Int) (k : Nat) (h : k < strlen str) :
    str.getD k 0 ≠ 0 := by
  induction str generalizing k with
  | nil => simp [strlen] at h
  | cons c str ih =>
    unfold strlen at h
    by_cases hc : c = 0
    · simp [hc] at h
    · simp only [hc, if_false] at h
      cases k with
      | zero => simpa using hc
      | succ k => simpa using ih k (by omega)

theorem getD_strlen (str : List Int) : str.getD (strlen str) 0 = 0 := by
  induction str with
  | nil => simp [strlen]
  | cons c str ih =>
    unfold strlen
    by_cases hc : c = 0
    · simp [hc]
    · simpa [hc] using ih

theorem centre_scan_some (gw : Nat) (str : List Int) (hL : strlen str < 256) (n : Nat) :
    ∀ (fuel x len : Nat), x + n = strlen str → n < fuel → len < 65536 →
      centre_scan gw str fuel x len = some (strlen str, (len + n * gw) % 65536) := by
  induction n with
  | zero =>
    intro fuel x len hx hf hlen
    obtain ⟨f, rfl⟩ : ∃ f, fuel = f + 1 := ⟨fuel - 1, by omega⟩
    have hx0 : x = strlen str := by omega
    unfold centre_scan
    rw [hx0, getD_strlen]
    simp only [ne_eq, not_true_eq_false, if_false, Nat.zero_mul, Nat.add_zero]
    rw [Nat.mod_eq_of_lt hlen]
  | succ n ih =>
    intro fuel x len hx hf _
    obtain ⟨f, rfl⟩ : ∃ f, fuel = f + 1 := ⟨fuel - 1, by omega⟩
    unfold centre_scan
    have hne := getD_ne_zero_of_lt_strlen str x (by omega)
    simp only [ne_eq, hne, not_false_eq_true, if_true]
    have h256 : (x + 1) % 256 = x + 1 := by omega
    rw [h256, ih f (x + 1) _ (by omega) (by omega) (Nat.mod_lt _ (by decide))]
    congr 2
    rw [Nat.succ_mul]
    omega

theorem centre_scan_none (gw : Nat) (str : List Int) (hL : 256 ≤ strlen str) :
    ∀ (fuel x len : Nat), x < 256 → centre_scan gw str fuel x len = none := by
  intro fuel
  induction fuel with
  | zero => intro x len _; rfl
  | succ f ih =>
    intro x len hx
    unfold centre_scan
    have hne := getD_ne_zero_of_lt_strlen str x (by omega)
    simp only [ne_eq, hne, not_false_eq_true, if_true]
    exact ih _ _ (Nat.mod_lt _ (by decide))

/-! ## Shape of `ossd_putlx` -/

theorem centre_x_def (len : Nat) :
    centre_x len = if len > 128 then 0 else (128 - len) / 2 := rfl

theorem centre_x_le (len : Nat) : centre_x len ≤ 64 := by
  unfold centre_x
  split <;> omega

theorem i8_centre_x (len : Nat) : i8 (centre_x len) = centre_x len := by
  have h := centre_x_le len
  unfold i8
  omega

theorem ossd_putlx_nonneg (e : Env) (fuel : Nat) (s : Dev) (line : Nat) (x : Int) (str : List Int)
    (atr : Nat) (hx : 0 ≤ x) :
    ossd_putlx e (fuel + 1) s line x str atr
      = some (ossd_putlx_draw e s (line &&& 0x07) x str atr) := by
  unfold ossd_putlx
  simp [not_lt.mpr hx]

theorem mode_ite_clear (e : Env) (s : Dev) (line col x : Nat) (c : Prop) [Decidable c] :
    (if c then centre_clear e s line col x else s).mode = s.mode := by
  split
  · rw [centre_clear_eq]
  · rfl

theorem ossd_putlx_mode (e : Env) (fuel : Nat) (s : Dev) (line : Nat) (x : Int) (str : List Int)
    (atr : Nat) (r : Dev) (h : ossd_putlx e fuel s line x str atr = some r) : r.mode = s.mode := by
  cases fuel with
  | zero => simp [ossd_putlx] at h
  | succ f =>
    by_cases hx : 0 ≤ x
    · rw [ossd_putlx_nonneg e f s line x str atr hx] at h
      simp only [Option.some.injEq] at h
      rw [← h, ossd_putlx_draw_eq]
    · unfold ossd_putlx at h
      simp only [not_le.mp hx, if_true, ossd_put_centre] at h
      split at h
      · simp at h
      · rename_i x0 len hscan
        split at h
        · simp at h
        · rename_i s2 hrec
          change ossd_putlx e f _ _ (i8 (centre_x len)) str atr = some s2 at hrec
          have h2 : s2.mode = s.mode := by
            cases f with
            | zero => simp [ossd_putlx] at hrec
            | succ g =>
              rw [ossd_putlx_nonneg e g _ _ _ str atr (by rw [i8_centre_x]; omega)] at hrec
              simp only [Option.some.injEq] at hrec
              rw [← hrec, ossd_putlx_draw_eq]
              exact mode_ite_clear e s _ _ _ _
          simp only [Option.some.injEq] at h
          rw [← h, mode_ite_clear, h2]

theorem land7_land7 (line : Nat) : line &&& 7 &&& 7 = line &&& 7 := by
  simp [Nat.land_assoc]

/-- The centred draw when the text has fewer than 256 characters: the length
loop ends and the draw is the left margin, the left-to-right draw from the
centred column, and the right margin. -/
theorem ossd_putlx_centred (e : Env) (fuel : Nat) (s : Dev) (line : Nat) (x : Int)
    (str : List Int) (atr : Nat) (hx : x < 0) (hL : strlen str < 256)
    (hf : strlen str + 2 ≤ fuel) :
    ossd_putlx e fuel s line x str atr
      = some (
          let len := (strlen str * e.bmfont.gw) % 65536
          let xc := centre_x len
          let s1 := if xc ≠ 0 then centre_clear e s (line &&& 0x07) 0 xc else s
          let s2 := ossd_putlx_draw e s1 (line &&& 0x07) xc str atr
          if xc ≠ 0 then centre_clear e s2 (line &&& 0x07) (u8 ((xc : Int) + len)) xc else s2) := by
  obtain ⟨g, rfl⟩ : ∃ g, fuel = g + 2 := ⟨fuel - 2, by omega⟩
  have hscan := centre_scan_some e.bmfont.gw str hL (strlen str) (g + 1) 0 0 (by omega) (by omega)
    (by decide)
  rw [Nat.zero_add] at hscan
  have hstep : ossd_putlx e (g + 2) s line x str atr
      = ossd_put_centre e (ossd_putlx e (g + 1)) (g + 1) s (line &&& 0x07) str atr := by
    rw [ossd_putlx]
    simp only [hx, if_true]
  rw [hstep]
  unfold ossd_put_centre
  rw [hscan]
  simp only
  rw [ossd_putlx_nonneg e g _ _ _ str atr (by
    show 0 ≤ i8 (centre_x _)
    rw [i8_centre_x]; omega)]
  simp only [land7_land7, ← centre_x_def, i8_centre_x]

theorem strlen_putcx_buf (c : Int) : strlen [c, 0] ≤ 1 := by
  unfold strlen
  split
  · omega
  · simp [strlen]

theorem strlen_replicate (n : Nat) (c : Int) (hc : c ≠ 0) : strlen (List.replicate n c) = n := by
  induction n with
  | zero => rfl
  | succ n ih => simp [List.replicate_succ, strlen, hc, ih]

/-- C1: whatever the tracked mode, line, x, text and attribute byte, and
whatever transport writes fail, a call of `ossd_putlx` (or `ossd_putcx`) that
returns leaves the tracked addressing mode equal to its value before the call.
The call does return: always for `x ≥ 0`, for every text shorter than 256
characters when centred, and always for `ossd_putcx`. -/
theorem ossd_putlx_restores_mode (e : Env) (fuel : Nat) (s : Dev) (line : Nat) (x : Int)
    (str : List Int) (ch atr : Nat) :
    (∀ r, ossd_putlx e fuel s line x str atr = some r → r.mode = s.mode) ∧
    (∀ r, ossd_putcx e fuel s line x ch atr = some r → r.mode = s.mode) ∧
    (1 ≤ fuel → 0 ≤ x → ∃ r, ossd_putlx e fuel s line x str atr = some r) ∧
    (strlen str < 256 → strlen str + 2 ≤ fuel → ∃ r, ossd_putlx e fuel s line x str atr = some r) ∧
    (3 ≤ fuel → ∃ r, ossd_putcx e fuel s line x ch atr = some r) := by
  have key : ∀ (t : List Int), strlen t < 256 → strlen t + 2 ≤ fuel →
      ∃ r, ossd_putlx e fuel s line x t atr = some r := by
    intro t hL hf
    by_cases hx : 0 ≤ x
    · obtain ⟨g, rfl⟩ : ∃ g, fuel = g + 1 := ⟨fuel - 1, by omega⟩
      exact ⟨_, ossd_putlx_nonneg e g s line x t atr hx⟩
    · exact ⟨_, ossd_putlx_centred e fuel s line x t atr (not_le.mp hx) hL hf⟩
  refine ⟨fun r h => ossd_putlx_mode e fuel s line x str atr r h,
    fun r h => ossd_putlx_mode e fuel s line x _ atr r h, ?_, key str, ?_⟩
  · intro hf hx
    obtain ⟨g, rfl⟩ : ∃ g, fuel = g + 1 := ⟨fuel - 1, by omega⟩
    exact ⟨_, ossd_putlx_nonneg e g s line x str atr hx⟩
  · intro hf
    have h1 := strlen_putcx_buf (i8 ch)
    exact key _ (by omega) (by omega)

theorem ossd_putlx_restores_mode_witness :
    ∃ r, ossd_putlx env6x8 4 ⟨0x10, []⟩ 2 (-1) [97, 98] 1 = some r ∧ r.mode = 0x10 := by
  obtain ⟨h1, _, _, h4, _⟩ := ossd_putlx_restores_mode env6x8 4 ⟨0x10, []⟩ 2 (-1) [97, 98] 0 1
  obtain ⟨r, hr⟩ := h4 (by decide) (by decide)
  exact ⟨r, hr, h1 r hr⟩

/-- C2 (divergence): a centred draw of a text of 256 or more characters never
returns.  The 8-bit index of the length loop of `ossd_put_centre` wraps from
255 to 0 before it reaches the terminating NUL, so the loop runs forever,
whatever the fuel. -/
theorem ossd_putlx_centre_hangs (e : Env) (s : Dev) (line : Nat) (x : Int) (str : List Int)
    (atr : Nat) (hx : x < 0) (hL : 256 ≤ strlen str) (fuel : Nat) :
    ossd_putlx e fuel s line x str atr = none := by
  cases fuel with
  | zero => rfl
  | succ f =>
    rw [ossd_putlx]
    simp only [hx, if_true]
    unfold ossd_put_centre
    rw [centre_scan_none e.bmfont.gw str hL f 0 0 (by decide)]

theorem ossd_putlx_centre_hangs_witness :
    ossd_putlx env6x8 1000 ⟨0x10, []⟩ 0 (-1) (List.replicate 256 97) 0 = none :=
  ossd_putlx_centre_hangs env6x8 ⟨0x10, []⟩ 0 (-1) (List.replicate 256 97) 0 (by decide)
    (by rw [strlen_replicate 256 97 (by decide)]) 1000

theorem putlx_places_eq_spec (e : Env) (hW1 : 1 ≤ e.bmfont.gw) (hW2 : e.bmfont.gw ≤ 128)
    (str : List Int) :
    ∀ (line X : Nat), X ≤ 128 →
      putlx_places e line (i8 X) str
        = spec_layout e.bmfont.gw ((e.bmfont.gh + 7) / 8) line X str := by
  induction str with
  | nil => intro line X _; rfl
  | cons c str ih =>
    intro line X hX
    unfold putlx_places spec_layout
    by_cases hc : c = 0
    · simp [hc]
    · simp only [hc, if_false]
      have hu : u8 (i8 X) = X := by unfold u8 i8; omega
      by_cases hw : X > 128 - e.bmfont.gw
      · have hw2 : ((u8 (i8 X) : Nat) : Int) > 128 - (e.bmfont.gw : Int) := by rw [hu]; omega
        simp only [hw, hw2, decide_True, if_true]
        have h0 : u8 0 = 0 := rfl
        have h7 : (line + (e.bmfont.gh + 7) / 8) &&& 7 = (line + (e.bmfont.gh + 7) / 8) % 8 :=
          Nat.and_pow_two_sub_one_eq_mod _ 3
        rw [h0, h7]
        have := ih ((line + (e.bmfont.gh + 7) / 8) % 8) (0 + e.bmfont.gw) (by omega)
        rw [← this]
        simp
      · have hw2 : ¬ ((u8 (i8 X) : Nat) : Int) > 128 - (e.bmfont.gw : Int) := by rw [hu]; omega
        simp only [hw, hw2, decide_False, if_false, Bool.false_eq_true]
        rw [hu]
        have hi : i8 X = X := by unfold i8; omega
        have := ih line (X + e.bmfont.gw) (by omega)
        rw [← this, hi]
        simp

/-- C3: with a start column `0 ≤ x ≤ 127` and a glyph width `1 ≤ W ≤ 128`,
`ossd_putlx` draws the glyphs exactly at the positions of the specified layout
rule: a wrap before a glyph iff the running `x` is greater than `128 - W`, the
wrapped glyph at column 0 of line `(line + (gh+7)/8) mod 8`, every other glyph
at the running `(line, x)`, and `x` advanced by `W` after each glyph.  The
transactions of the call are the switch to horizontal mode, for each position
the cursor positioning followed by the glyph bytes, and the mode restore. -/
theorem ossd_putlx_layout (e : Env) (fuel : Nat) (s : Dev) (line : Nat) (x : Int)
    (str : List Int) (atr : Nat) (hW1 : 1 ≤ e.bmfont.gw) (hW2 : e.bmfont.gw ≤ 128)
    (hx0 : 0 ≤ x) (hx1 : x ≤ 127) :
    putlx_places e (line &&& 0x07) x str
        = spec_layout e.bmfont.gw ((e.bmfont.gh + 7) / 8) (line % 8) x.toNat str ∧
    ossd_putlx e (fuel + 1) s line x str atr
        = some ⟨s.mode, s.log ++ (mode_txs s.mode 0
            ++ ((spec_layout e.bmfont.gw ((e.bmfont.gh + 7) / 8) (line % 8) x.toNat str).flatMap
                  (place_txs e atr 0)
            ++ mode_txs 0 s.mode))⟩ := by
  have h7 : line &&& 7 = line % 8 := Nat.and_pow_two_sub_one_eq_mod _ 3
  have hx : i8 (x.toNat : Nat) = x := by unfold i8; omega
  have hp := putlx_places_eq_spec e hW1 hW2 str (line % 8) x.toNat (by omega)
  rw [hx] at hp
  refine ⟨by rw [h7, hp], ?_⟩
  rw [ossd_putlx_nonneg e fuel s line x str atr hx0, ossd_putlx_draw_eq, h7, hp]

theorem ossd_putlx_layout_witness :
    ossd_putlx env6x8 1 ⟨0x10, []⟩ 1 120 [97, 98, 99] 0
      = some ⟨0x10, [[0, 0x20, 0]]
          ++ ([(1, 120, 97), (2, 0, 98), (2, 6, 99)].flatMap (place_txs env6x8 0 0)
          ++ [[0, 0x20, 0x10], [0, 0x22, 0, 7], [0, 0x21, 0, 127]])⟩ :=
  (ossd_putlx_layout env6x8 0 ⟨0x10, []⟩ 1 120 [97, 98, 99] 0 (by decide) (by decide)
    (by decide) (by decide)).2.trans (by decide)

/-! ## Controller lifecycle -/

theorem range8 : List.range 8 = [0, 1, 2, 3, 4, 5, 6, 7] := by decide

theorem ossd_init_eq (e : Env) (s : Dev) (o : Nat) :
    ossd_init e s o
      = if e.busy s.log.length then (⟨0xFF, s.log ++ [[0x00, 0xAE]]⟩, -1)
        else (⟨0x10, s.log ++ init_txs o⟩, 0) := by
  unfold ossd_init
  by_cases hb : e.busy s.log.length = true
  · simp [hb, ossd_cmd_fst, ossd_cmd_snd, OSSD_SET_SLEEP_ON]
  · simp only [ossd_cmd_snd, hb]
    simp [ossd_cmd_fst, ossd_cmd_arg_fst, ossd_set_addr_mode_fst, mode_txs, ossd_fill_screen,
      ossd_fill_line_eq, ossd_goto_eq, goto_txs, range8, init_txs,
      OSSD_SET_SLEEP_ON, OSSD_SET_MUX_RATIO, OSSD_SET_DISP_OFFSET, OSSD_SET_START_LINE,
      OSSD_SET_SEG_REMAP, OSSD_SEG_REMAP_R2L, OSSD_SET_COM_DIR, OSSD_COM_DIR_UPDOWN,
      OSSD_SET_COM_CONFIG, OSSD_COM_ALT, OSSD_SET_CONTRAST, OSSD_SET_OUTPUT_RAM,
      OSSD_SET_DISP_CLOCK, OSSD_SET_PRECHARGE, OSSD_SET_VCOMH_LEVEL, OSSD_VCOMH_L077,
      OSSD_SET_INVERSE_OFF, OSSD_SET_CHARGE_PUMP, OSSD_CHARGE_PUMP_ON, OSSD_ADDR_MODE_PAGE,
      OSSD_SET_SLEEP_OFF]
    decide

theorem wire_eq_of_never_busy (e : Env) (h : ∀ n, e.busy n = false) (log : List (List Nat)) :
    wire e log = log := by
  unfold wire
  simp [h, List.enum]

/-- C4: when the transport succeeds, `ossd_init` returns 0, leaves the tracked
mode at Page (0x10) and emits exactly the transactions
[00 AE], [00 A8 3F], [00 D3 00], [00 40], [00 A0|(o&01)], [00 C0|(o&08)],
[00 DA 12], [00 81 40], [00 A4], [00 D5 80], [00 D9 22], [00 DB 20], [00 A6],
[00 8D 14], [00 20 10], [00 22 00 07], [00 21 00 7F], then for each page
p = 0..7 [00 B0|p], [00 00], [00 10], [40 and 128 zero bytes], then [00 AF],
[00 B0], [00 00], [00 10], in this order, all of which reach the device. -/
theorem ossd_init_sequence (e : Env) (s : Dev) (o : Nat) (h : ∀ n, e.busy n = false) :
    (ossd_init e s o).2 = 0 ∧
    (ossd_init e s o).1.mode = 0x10 ∧
    (ossd_init e s o).1.log = s.log ++
      ([[0x00, 0xAE], [0x00, 0xA8, 0x3F], [0x00, 0xD3, 0x00], [0x00, 0x40],
        [0x00, 0xA0 ||| (o &&& 0x01)], [0x00, 0xC0 ||| (o &&& 0x08)],
        [0x00, 0xDA, 0x12], [0x00, 0x81, 0x40], [0x00, 0xA4], [0x00, 0xD5, 0x80],
        [0x00, 0xD9, 0x22], [0x00, 0xDB, 0x20], [0x00, 0xA6], [0x00, 0x8D, 0x14],
        [0x00, 0x20, 0x10], [0x00, 0x22, 0x00, 0x07], [0x00, 0x21, 0x00, 0x7F]]
      ++ (List.range 8).flatMap
          (fun p => [[0x00, 0xB0 ||| p], [0x00, 0x00], [0x00, 0x10],
                     0x40 :: List.replicate 128 0])
      ++ [[0x00, 0xAF], [0x00, 0xB0], [0x00, 0x00], [0x00, 0x10]]) ∧
    wire e (ossd_init e s o).1.log = (ossd_init e s o).1.log := by
  refine ⟨?_, ?_, ?_, wire_eq_of_never_busy e h _⟩ <;>
    simp [ossd_init_eq, h, init_txs]

theorem ossd_init_sequence_witness :
    (ossd_init env6x8 ⟨0, []⟩ 9).1.mode = 0x10 ∧
    (ossd_init env6x8 ⟨0, []⟩ 9).1.log.length = 53 ∧
    (ossd_init env6x8 ⟨0, []⟩ 9).1.log.take 6
      = [[0x00, 0xAE], [0x00, 0xA8, 0x3F], [0x00, 0xD3, 0x00], [0x00, 0x40], [0x00, 0xA1],
         [0x00, 0xC8]] := by
  have h := ossd_init_sequence env6x8 ⟨0, []⟩ 9 (fun _ => rfl)
  refine ⟨h.2.1, ?_, ?_⟩
  · rw [h.2.2.1]; decide
  · rw [h.2.2.1]; decide

/-- C5: `ossd_init` returns -1 exactly when the transport write of its first
command [00 AE] fails, and then that failed command is the only one it
issued; when the first write succeeds it returns 0 and issues the whole
sequence, whatever the transport does with the later writes. -/
theorem ossd_init_failure (e : Env) (s : Dev) (o : Nat) :
    ((ossd_init e s o).2 = -1 ↔ e.busy s.log.length = true) ∧
    (e.busy s.log.length = true → (ossd_init e s o).1.log = s.log ++ [[0x00, 0xAE]]) ∧
    (e.busy s.log.length = false →
      (ossd_init e s o).2 = 0 ∧ (ossd_init e s o).1.log = s.log ++ init_txs o) := by
  rw [ossd_init_eq]
  by_cases hb : e.busy s.log.length = true <;> simp [hb]

theorem ossd_init_failure_witness :
    (ossd_init { env6x8 with busy := fun n => decide (n = 0) } ⟨0, []⟩ 0).2 = -1 ∧
    (ossd_init { env6x8 with busy := fun n => decide (n = 0) } ⟨0, []⟩ 0).1.log = [[0x00, 0xAE]] ∧
    (ossd_init { env6x8 with busy := fun n => decide (n ≠ 0) } ⟨0, []⟩ 0).2 = 0 ∧
    (ossd_init { env6x8 with busy := fun n => decide (n ≠ 0) } ⟨0, []⟩ 0).1.log = init_txs 0 := by
  have h1 := ossd_init_failure { env6x8 with busy := fun n => decide (n = 0) } ⟨0, []⟩ 0
  have h2 := ossd_init_failure { env6x8 with busy := fun n => decide (n ≠ 0) } ⟨0, []⟩ 0
  exact ⟨h1.1.mpr rfl, h1.2.1 rfl, (h2.2.2 rfl).1, (h2.2.2 rfl).2⟩

/-- C6: `ossd_set_addr_mode target` returns the mode tracked before the call.
When `target` is the tracked mode, nothing is emitted and the state is
unchanged.  Otherwise the tracked mode becomes `target` and the call emits
[00 20 target], followed by [00 22 00 07] and [00 21 00 7F] exactly when
`target` is Page (0x10), and by nothing else when it is not. -/
theorem ossd_set_addr_mode_contract (e : Env) (s : Dev) (target : Nat) :
    (ossd_set_addr_mode e s target).2 = s.mode ∧
    (target = s.mode → (ossd_set_addr_mode e s target).1 = s) ∧
    (target ≠ s.mode → target = 0x10 →
      (ossd_set_addr_mode e s target).1
        = ⟨target, s.log ++ [[0x00, 0x20, target], [0x00, 0x22, 0x00, 0x07],
            [0x00, 0x21, 0x00, 0x7F]]⟩) ∧
    (target ≠ s.mode → target ≠ 0x10 →
      (ossd_set_addr_mode e s target).1 = ⟨target, s.log ++ [[0x00, 0x20, target]]⟩) := by
  refine ⟨ossd_set_addr_mode_snd e s target, ?_, ?_, ?_⟩
  · intro h
    rw [ossd_set_addr_mode_fst, mode_txs, if_pos h.symm, h, List.append_nil]
  · intro h hp
    rw [ossd_set_addr_mode_fst, mode_txs, if_neg (Ne.symm h), if_pos hp]
  · intro h hp
    rw [ossd_set_addr_mode_fst, mode_txs, if_neg (Ne.symm h), if_neg hp]

theorem ossd_set_addr_mode_contract_witness :
    (ossd_set_addr_mode env6x8 ⟨0x00, []⟩ 0x00).1 = ⟨0x00, []⟩ ∧
    (ossd_set_addr_mode env6x8 ⟨0x00, []⟩ 0x10).1
      = ⟨0x10, [[0x00, 0x20, 0x10], [0x00, 0x22, 0x00, 0x07], [0x00, 0x21, 0x00, 0x7F]]⟩ ∧
    (ossd_set_addr_mode env6x8 ⟨0x10, []⟩ 0x01).1 = ⟨0x01, [[0x00, 0x20, 0x01]]⟩ :=
  ⟨(ossd_set_addr_mode_contract env6x8 ⟨0x00, []⟩ 0x00).2.1 rfl,
   (ossd_set_addr_mode_contract env6x8 ⟨0x00, []⟩ 0x10).2.2.1 (by decide) rfl,
   (ossd_set_addr_mode_contract env6x8 ⟨0x10, []⟩ 0x01).2.2.2 (by decide) (by decide)⟩

/-- C7: `ossd_goto line x` leaves the tracked mode unchanged.  In Page mode it
emits exactly [00 B0|(line&07)], [00 (x&0F)], [00 10|(x>>4)] in this order; in
any other mode exactly [00 21 x (x+W-1 mod 256)] and [00 22 line (line+1 mod
256)] in this order, `W` being the glyph width of the current font. -/
theorem ossd_goto_contract (e : Env) (s : Dev) (line x : Nat) :
    (ossd_goto e s line x).mode = s.mode ∧
    (s.mode = 0x10 →
      (ossd_goto e s line x).log
        = s.log ++ [[0x00, 0xB0 ||| (line &&& 0x07)], [0x00, x &&& 0x0F],
            [0x00, 0x10 ||| (x >>> 4)]]) ∧
    (s.mode ≠ 0x10 →
      (ossd_goto e s line x).log
        = s.log ++ [[0x00, 0x21, x, (((x : Int) + e.bmfont.gw - 1) % 256).toNat],
            [0x00, 0x22, line, (line + 1) % 256]]) := by
  rw [ossd_goto_eq]
  refine ⟨rfl, ?_, ?_⟩
  · intro h
    simp [goto_txs, h]
  · intro h
    have h1 : u8 ((line : Int) + 1) = (line + 1) % 256 := by unfold u8; omega
    rw [goto_txs, if_neg h, h1]
    rfl

theorem ossd_goto_contract_witness :
    (ossd_goto env6x8 ⟨0x10, []⟩ 3 0x45).log = [[0x00, 0xB3], [0x00, 0x05], [0x00, 0x14]] ∧
    (ossd_goto env6x8 ⟨0x00, []⟩ 3 0x45).log = [[0x00, 0x21, 0x45, 0x4A], [0x00, 0x22, 3, 4]] :=
  ⟨(ossd_goto_contract env6x8 ⟨0x10, []⟩ 3 0x45).2.1 rfl,
   (ossd_goto_contract env6x8 ⟨0x00, []⟩ 3 0x45).2.2 (by decide)⟩

/-! ## Pixel data of a text draw -/

theorem data_txs_append (l1 l2 : List (List Nat)) :
    data_txs (l1 ++ l2) = data_txs l1 ++ data_txs l2 := by
  simp [data_txs]

theorem data_txs_mode_txs (a b : Nat) : data_txs (mode_txs a b) = [] := by
  unfold mode_txs data_txs
  split
  · rfl
  · split <;> simp

theorem data_txs_goto_txs (e : Env) (mode line x : Nat) :
    data_txs (goto_txs e mode line x) = [] := by
  unfold goto_txs data_txs
  split <;> simp

theorem data_txs_glyph_txs (e : Env) (atr : Nat) (c : Int) :
    data_txs (glyph_txs e atr c) = glyph_txs e atr c := by
  unfold glyph_txs data_txs
  simp [List.filter_eq_self]

theorem data_txs_places (e : Env) (atr mode : Nat) (l : List (Nat × Nat × Int)) :
    data_txs (l.flatMap (place_txs e atr mode)) = l.flatMap (fun p => glyph_txs e atr p.2.2) := by
  induction l with
  | nil => rfl
  | cons p l ih =>
    simp only [List.flatMap_cons, data_txs_append, ih, place_txs, data_txs_goto_txs,
      data_txs_glyph_txs, List.nil_append]

theorem putlx_places_chars (e : Env) (str : List Int) :
    ∀ (line : Nat) (x : Int), (putlx_places e line x str).map (fun p => p.2.2) = chars str := by
  induction str with
  | nil => intro _ _; rfl
  | cons c str ih =>
    intro line x
    unfold putlx_places chars
    by_cases hc : c = 0
    · simp [hc]
    · simp only [hc, if_false, List.map_cons, ih]

theorem length_chars (str : List Int) : (chars str).length = strlen str := by
  induction str with
  | nil => rfl
  | cons c str ih =>
    unfold chars strlen
    by_cases hc : c = 0
    · simp [hc]
    · simp [hc, ih]

/-- The data transactions of a left-to-right draw: for each character in
turn, one two-byte transaction per glyph byte. -/
theorem ossd_putlx_data (e : Env) (fuel : Nat) (s : Dev) (line : Nat) (x : Int)
    (str : List Int) (atr : Nat) (hx : 0 ≤ x) :
    ∃ new, ossd_putlx e (fuel + 1) s line x str atr = some ⟨s.mode, s.log ++ new⟩ ∧
      data_txs new = (chars str).flatMap (glyph_txs e atr) := by
  refine ⟨_, by rw [ossd_putlx_nonneg e fuel s line x str atr hx, ossd_putlx_draw_eq], ?_⟩
  rw [data_txs_append, data_txs_append, data_txs_mode_txs, data_txs_mode_txs, data_txs_places,
    List.nil_append, List.append_nil, ← putlx_places_chars e str (line &&& 0x07) x,
    List.flatMap_map]

theorem flatMap_tail_glyph_txs (e : Env) (atr : Nat) (l : List Int) :
    (l.flatMap (glyph_txs e atr)).flatMap List.tail = l.flatMap (glyph_bytes e atr) := by
  rw [List.flatMap_assoc]
  congr 1
  funext c
  unfold glyph_txs glyph_bytes
  induction List.range (glyph_gb e) with
  | nil => rfl
  | cons i l ih => simp [List.flatMap_cons, ih]

theorem ossd_putlx_data_bytes (e : Env) (fuel : Nat) (s : Dev) (line : Nat) (x : Int)
    (str : List Int) (atr : Nat) (hx : 0 ≤ x) :
    ∃ new, ossd_putlx e (fuel + 1) s line x str atr = some ⟨s.mode, s.log ++ new⟩ ∧
      data_bytes new = (chars str).flatMap (glyph_bytes e atr) := by
  obtain ⟨new, h1, h2⟩ := ossd_putlx_data e fuel s line x str atr hx
  exact ⟨new, h1, by rw [data_bytes, h2, flatMap_tail_glyph_txs]⟩

/-- The inner loop body in closed form: the table byte XOR one mask per
attribute. -/
theorem glyph_byte_eq (e : Env) (atr idx i : Nat) :
    glyph_byte e atr idx i
      = e.bmfont.font ((idx + i) % 65536)
        ^^^ (if atr &&& e.TEXT_REVERSE ≠ 0 then 0xFF else 0)
        ^^^ (if atr &&& e.TEXT_UNDERLINE ≠ 0 ∧ (e.bmfont.gh = 8 ∨ e.bmfont.gw ≤ i) then 0x80 else 0)
        ^^^ (if atr &&& e.TEXT_OVERLINE ≠ 0 ∧ i < e.bmfont.gw then 0x01 else 0) := by
  have h255 : u8 (-1) = 255 := by decide
  have hi : ((i : Int) > (e.bmfont.gw : Int) - 1) ↔ e.bmfont.gw ≤ i := by omega
  have hle : e.bmfont.gw ≤ i ↔ ¬ i < e.bmfont.gw := by omega
  unfold glyph_byte
  simp only [h255, hi, hle]
  by_cases hr : atr &&& e.TEXT_REVERSE = 0 <;>
  by_cases ho : atr &&& e.TEXT_OVERLINE = 0 <;>
  by_cases hu : atr &&& e.TEXT_UNDERLINE = 0 <;>
  by_cases hg : e.bmfont.gh = 8 <;>
  by_cases hw : i < e.bmfont.gw <;>
  simp [hr, ho, hu, hg, hw]

theorem glyph_byte_reverse (e : Env) (a b : Nat) (idx i : Nat)
    (ha : a &&& e.TEXT_REVERSE = 0) (hb : b &&& e.TEXT_REVERSE ≠ 0)
    (ho : a &&& e.TEXT_OVERLINE ≠ 0 ↔ b &&& e.TEXT_OVERLINE ≠ 0)
    (hu : a &&& e.TEXT_UNDERLINE ≠ 0 ↔ b &&& e.TEXT_UNDERLINE ≠ 0) :
    glyph_byte e b idx i = glyph_byte e a idx i ^^^ 0xFF := by
  rw [glyph_byte_eq, glyph_byte_eq]
  simp only [ha, hb, ← ho, ← hu, ne_eq, not_true_eq_false, not_false_eq_true, if_true, if_false,
    Nat.xor_zero]
  ac_rfl

theorem glyph_byte_overline (e : Env) (a b : Nat) (idx i : Nat)
    (ha : a &&& e.TEXT_OVERLINE = 0) (hb : b &&& e.TEXT_OVERLINE ≠ 0)
    (hr : a &&& e.TEXT_REVERSE ≠ 0 ↔ b &&& e.TEXT_REVERSE ≠ 0)
    (hu : a &&& e.TEXT_UNDERLINE ≠ 0 ↔ b &&& e.TEXT_UNDERLINE ≠ 0) :
    glyph_byte e b idx i
      = if i < e.bmfont.gw then glyph_byte e a idx i ^^^ 0x01 else glyph_byte e a idx i := by
  rw [glyph_byte_eq, glyph_byte_eq]
  simp only [ha, hb, ← hr, ← hu, ne_eq, not_true_eq_false, not_false_eq_true, if_true, if_false,
    Nat.xor_zero, true_and, false_and]
  by_cases hw : i < e.bmfont.gw <;> simp [hw]

theorem glyph_byte_plain (e : Env) (a : Nat) (idx i : Nat)
    (hr : a &&& e.TEXT_REVERSE = 0) (ho : a &&& e.TEXT_OVERLINE = 0)
    (hu : a &&& e.TEXT_UNDERLINE = 0) :
    glyph_byte e a idx i = e.bmfont.font ((idx + i) % 65536) := by
  rw [glyph_byte_eq]
  simp [hr, ho, hu]

/-- C8: the bytes `ossd_putlx` writes for a text are, glyph after glyph, the
bytes `glyph_byte` computes for the indices `0 .. gb-1`.  For every font and
every byte index: with the Reverse attribute the written byte is the byte
written without it XOR 0xFF (so the whole stream is complemented), with the
Overline attribute bit 0 is XORed into exactly the bytes of index `i < W`,
other attributes being equal in both cases; with no attribute set the written
byte is the glyph-table byte. -/
theorem glyph_reverse_overline (e : Env) (a b : Nat) :
    (∀ fuel s line x str, 0 ≤ x →
      ∃ new, ossd_putlx e (fuel + 1) s line x str a = some ⟨s.mode, s.log ++ new⟩ ∧
        data_bytes new = (chars str).flatMap (fun c =>
          (List.range (glyph_gb e)).map (fun i => glyph_byte e a (glyph_idx e c) i))) ∧
    (a &&& e.TEXT_REVERSE = 0 → b &&& e.TEXT_REVERSE ≠ 0 →
      (a &&& e.TEXT_OVERLINE ≠ 0 ↔ b &&& e.TEXT_OVERLINE ≠ 0) →
      (a &&& e.TEXT_UNDERLINE ≠ 0 ↔ b &&& e.TEXT_UNDERLINE ≠ 0) →
      (∀ idx i, glyph_byte e b idx i = glyph_byte e a idx i ^^^ 0xFF) ∧
      (∀ fuel s line x str, 0 ≤ x →
        ∃ na nb, ossd_putlx e (fuel + 1) s line x str a = some ⟨s.mode, s.log ++ na⟩ ∧
          ossd_putlx e (fuel + 1) s line x str b = some ⟨s.mode, s.log ++ nb⟩ ∧
          data_bytes nb = (data_bytes na).map (fun d => d ^^^ 0xFF))) ∧
    (a &&& e.TEXT_OVERLINE = 0 → b &&& e.TEXT_OVERLINE ≠ 0 →
      (a &&& e.TEXT_REVERSE ≠ 0 ↔ b &&& e.TEXT_REVERSE ≠ 0) →
      (a &&& e.TEXT_UNDERLINE ≠ 0 ↔ b &&& e.TEXT_UNDERLINE ≠ 0) →
      ∀ idx i, glyph_byte e b idx i
        = if i < e.bmfont.gw then glyph_byte e a idx i ^^^ 0x01 else glyph_byte e a idx i) ∧
    (a &&& e.TEXT_REVERSE = 0 → a &&& e.TEXT_OVERLINE = 0 → a &&& e.TEXT_UNDERLINE = 0 →
      ∀ idx i, glyph_byte e a idx i = e.bmfont.font ((idx + i) % 65536)) := by
  refine ⟨?_, ?_, ?_, ?_⟩
  · intro fuel s line x str hx
    exact ossd_putlx_data_bytes e fuel s line x str a hx
  · intro ha hb ho hu
    refine ⟨fun idx i => glyph_byte_reverse e a b idx i ha hb ho hu, ?_⟩
    intro fuel s line x str hx
    obtain ⟨na, h1, h2⟩ := ossd_putlx_data_bytes e fuel s line x str a hx
    obtain ⟨nb, h3, h4⟩ := ossd_putlx_data_bytes e fuel s line x str b hx
    refine ⟨na, nb, h1, h3, ?_⟩
    rw [h2, h4, List.map_flatMap]
    congr 1
    funext c
    simp [glyph_bytes, glyph_byte_reverse e a b _ _ ha hb ho hu]
  · intro ha hb hr hu idx i
    exact glyph_byte_overline e a b idx i ha hb hr hu
  · intro hr ho hu idx i
    exact glyph_byte_plain e a idx i hr ho hu

theorem glyph_reverse_overline_witness :
    glyph_byte env6x8 1 390 2 = glyph_byte env6x8 0 390 2 ^^^ 0xFF ∧
    glyph_byte env6x8 2 390 2
      = (if 2 < env6x8.bmfont.gw then glyph_byte env6x8 0 390 2 ^^^ 0x01
         else glyph_byte env6x8 0 390 2) ∧
    glyph_byte env6x8 0 390 2 = env6x8.bmfont.font ((390 + 2) % 65536) :=
  ⟨((glyph_reverse_overline env6x8 0 1).2.1 (by decide) (by decide) (by decide)
      (by decide)).1 390 2,
   (glyph_reverse_overline env6x8 0 2).2.2.1 (by decide) (by decide) (by decide) (by decide)
      390 2,
   (glyph_reverse_overline env6x8 0 1).2.2.2 (by decide) (by decide) (by decide) 390 2⟩

theorem div_eq_one_iff (i gw : Nat) (h : 0 < gw) : i / gw = 1 ↔ gw ≤ i ∧ i < 2 * gw := by
  constructor
  · intro h1
    have a : 1 ≤ i / gw := by omega
    have b : i / gw < 2 := by omega
    rw [Nat.le_div_iff_mul_le h] at a
    rw [Nat.div_lt_iff_lt_mul h] at b
    omega
  · intro ⟨a, b⟩
    have a1 : 1 ≤ i / gw := by rw [Nat.le_div_iff_mul_le h]; omega
    have b1 : i / gw < 2 := by rw [Nat.div_lt_iff_lt_mul h]; omega
    omega

/-- For a font one or two row-bands tall, the underline condition of the inner
loop selects exactly the bytes of the bottom row-band. -/
theorem underline_cond_iff_bottom (e : Env) (hgw : e.bmfont.gw < 256)
    (hgh : e.bmfont.gh = 8 ∨ e.bmfont.gh = 16) (i : Nat) (hi : i < glyph_gb e) :
    (e.bmfont.gh = 8 ∨ e.bmfont.gw ≤ i) ↔ i / e.bmfont.gw = e.bmfont.gh / 8 - 1 := by
  unfold glyph_gb at hi
  rcases hgh with h8 | h16
  · rw [h8] at hi ⊢
    have hlt : i < e.bmfont.gw := by omega
    simp [Nat.div_eq_of_lt hlt]
  · rw [h16] at hi ⊢
    have hpos : 0 < e.bmfont.gw := by omega
    have h1 : (16 : Nat) / 8 - 1 = 1 := by decide
    rw [h1, div_eq_one_iff i _ hpos]
    constructor
    · rintro (h | h)
      · omega
      · omega
    · intro h
      exact Or.inr h.1

/-- C9 (counterexample): with the 6x24 font, byte 6 of a glyph lies in the
middle row-band (band 1 of 0..2), yet drawing with Underline flips its bit 7:
the byte written is 152 = 24 XOR 0x80 instead of 24. -/
theorem underline_middle_band_counterexample :
    6 / env6x24.bmfont.gw = 1 ∧ env6x24.bmfont.gh / 8 - 1 = 2 ∧
    (ossd_putlx env6x24 1 ⟨0, []⟩ 0 0 [33] 0).map (fun r => (data_bytes r.log)[6]?)
      = some (some 24) ∧
    (ossd_putlx env6x24 1 ⟨0, []⟩ 0 0 [33] 4).map (fun r => (data_bytes r.log)[6]?)
      = some (some (24 ^^^ 0x80)) := by
  decide

/-- C9 (amended): with the Underline attribute, other attributes equal, bit 7
is XORed into exactly the bytes for which the glyph height is 8 or the index
is at least `W`.  For a font one or two row-bands tall (height 8 or 16) these
are exactly the bytes of the bottom row-band `gh/8 - 1`, the band of byte `i`
being `i / W`.  The bytes concerned are those `ossd_putlx` writes. -/
theorem glyph_underline (e : Env) (a b : Nat)
    (ha : a &&& e.TEXT_UNDERLINE = 0) (hb : b &&& e.TEXT_UNDERLINE ≠ 0)
    (hr : a &&& e.TEXT_REVERSE ≠ 0 ↔ b &&& e.TEXT_REVERSE ≠ 0)
    (ho : a &&& e.TEXT_OVERLINE ≠ 0 ↔ b &&& e.TEXT_OVERLINE ≠ 0) :
    (∀ fuel s line x str, 0 ≤ x →
      ∃ new, ossd_putlx e (fuel + 1) s line x str b = some ⟨s.mode, s.log ++ new⟩ ∧
        data_bytes new = (chars str).flatMap (fun c =>
          (List.range (glyph_gb e)).map (fun i => glyph_byte e b (glyph_idx e c) i))) ∧
    (∀ idx i, glyph_byte e b idx i
      = if e.bmfont.gh = 8 ∨ e.bmfont.gw ≤ i then glyph_byte e a idx i ^^^ 0x80
        else glyph_byte e a idx i) ∧
    (e.bmfont.gw < 256 → (e.bmfont.gh = 8 ∨ e.bmfont.gh = 16) →
      ∀ idx i, i < glyph_gb e →
        glyph_byte e b idx i
          = if i / e.bmfont.gw = e.bmfont.gh / 8 - 1 then glyph_byte e a idx i ^^^ 0x80
            else glyph_byte e a idx i) := by
  have key : ∀ idx i, glyph_byte e b idx i
      = if e.bmfont.gh = 8 ∨ e.bmfont.gw ≤ i then glyph_byte e a idx i ^^^ 0x80
        else glyph_byte e a idx i := by
    intro idx i
    rw [glyph_byte_eq, glyph_byte_eq]
    simp only [ha, hb, ← hr, ← ho, ne_eq, not_true_eq_false, not_false_eq_true, if_true, if_false,
      Nat.xor_zero, true_and, false_and]
    by_cases hc : e.bmfont.gh = 8 ∨ e.bmfont.gw ≤ i
    · simp only [hc, if_true]
      ac_rfl
    · simp only [hc, if_false, Nat.xor_zero]
  refine ⟨fun fuel s line x str hx => ossd_putlx_data_bytes e fuel s line x str b hx, key, ?_⟩
  intro hgw hgh idx i hi
  rw [key]
  have hiff := underline_cond_iff_bottom e hgw hgh i hi
  by_cases hc : e.bmfont.gh = 8 ∨ e.bmfont.gw ≤ i
  · rw [if_pos hc, if_pos (hiff.mp hc)]
  · rw [if_neg hc, if_neg (fun h => hc (hiff.mpr h))]

theorem glyph_underline_witness :
    glyph_byte env6x8 4 390 2
      = (if 2 / env6x8.bmfont.gw = env6x8.bmfont.gh / 8 - 1 then glyph_byte env6x8 0 390 2 ^^^ 0x80
         else glyph_byte env6x8 0 390 2) :=
  (glyph_underline env6x8 0 4 (by decide) (by decide) (by decide) (by decide)).2.2 (by decide)
    (by decide) 390 2 (by decide)

theorem length_flatMap_glyph_txs (e : Env) (atr : Nat) (l : List Int) :
    (l.flatMap (glyph_txs e atr)).length = l.length * glyph_gb e := by
  induction l with
  | nil => simp
  | cons c l ih =>
    rw [List.flatMap_cons, List.length_append, ih, List.length_cons, Nat.succ_mul]
    simp [glyph_txs]
    omega

theorem glyph_idx_in_table (e : Env) (c : Int) (i : Nat) (hgo : (e.bmfont.go : Int) ≤ c)
    (hc : c ≤ 255) (hi : i < glyph_gb e) :
    (glyph_idx e c + i) % 65536 = (c - e.bmfont.go).toNat * glyph_gb e + i := by
  have hgb : glyph_gb e < 256 := Nat.mod_lt _ (by decide)
  obtain ⟨k, hk⟩ : ∃ k : Nat, c - (e.bmfont.go : Int) = k := ⟨(c - e.bmfont.go).toNat, by omega⟩
  have hk255 : k ≤ 255 := by omega
  have hprod : k * glyph_gb e ≤ 255 * 255 := Nat.mul_le_mul hk255 (by omega)
  unfold glyph_idx u16
  rw [hk]
  have hcast : ((k : Int) * (glyph_gb e : Int)) = ((k * glyph_gb e : Nat) : Int) := by
    push_cast; rfl
  rw [hcast]
  simp only [Int.toNat_ofNat]
  omega

/-- C10 (counterexample): with a 128x16 font the product `gw * (gh/8)` is 256,
the 8-bit byte count `gb` is 0, and drawing the one-character text "a" emits
no data transaction at all instead of `1 * 256`. -/
theorem data_count_counterexample :
    env128x16.bmfont.gw * (env128x16.bmfont.gh / 8) = 256 ∧
    (ossd_putlx env128x16 1 ⟨0, []⟩ 0 0 [97] 0).map (fun r => (data_txs r.log).length)
      = some 0 := by
  decide

/-- C10 (amended): for a text of `n = strlen str` characters drawn with
`x ≥ 0`, the data transactions are, for each character in turn and each
`i = 0 .. gb-1` in increasing order, the two-byte transaction
[40, glyph_byte ...]; there are exactly `n * gb` of them, where
`gb = (gw * (gh/8)) mod 256` is the 8-bit byte count of the code, equal to
`gw * (gh/8)` when that product is below 256.  For a character code `c` in
`go .. 255` the byte written for index `i` is the glyph-table byte at index
`(c - go) * gb + i`, XORed with the attribute masks. -/
theorem ossd_putlx_data_count (e : Env) (fuel : Nat) (s : Dev) (line : Nat) (x : Int)
    (str : List Int) (atr : Nat) (hx : 0 ≤ x) :
    ∃ new, ossd_putlx e (fuel + 1) s line x str atr = some ⟨s.mode, s.log ++ new⟩ ∧
      data_txs new = (chars str).flatMap (fun c =>
        (List.range ((e.bmfont.gw * (e.bmfont.gh / 8)) % 256)).map
          (fun i => [0x40, glyph_byte e atr (glyph_idx e c) i])) ∧
      (data_txs new).length = strlen str * ((e.bmfont.gw * (e.bmfont.gh / 8)) % 256) ∧
      (e.bmfont.gw * (e.bmfont.gh / 8) < 256 →
        (data_txs new).length = strlen str * (e.bmfont.gw * (e.bmfont.gh / 8))) ∧
      (∀ c i, (e.bmfont.go : Int) ≤ c → c ≤ 255 → i < (e.bmfont.gw * (e.bmfont.gh / 8)) % 256 →
        glyph_byte e atr (glyph_idx e c) i
          = e.bmfont.font ((c - e.bmfont.go).toNat * ((e.bmfont.gw * (e.bmfont.gh / 8)) % 256) + i)
            ^^^ (if atr &&& e.TEXT_REVERSE ≠ 0 then 0xFF else 0)
            ^^^ (if atr &&& e.TEXT_UNDERLINE ≠ 0 ∧ (e.bmfont.gh = 8 ∨ e.bmfont.gw ≤ i)
                  then 0x80 else 0)
            ^^^ (if atr &&& e.TEXT_OVERLINE ≠ 0 ∧ i < e.bmfont.gw then 0x01 else 0)) := by
  obtain ⟨new, h1, h2⟩ := ossd_putlx_data e fuel s line x str atr hx
  have hlen : (data_txs new).length = strlen str * ((e.bmfont.gw * (e.bmfont.gh / 8)) % 256) := by
    rw [h2, length_flatMap_glyph_txs, length_chars]
    rfl
  refine ⟨new, h1, h2, hlen, ?_, ?_⟩
  · intro hlt
    rw [hlen, Nat.mod_eq_of_lt hlt]
  · intro c i hgo hc hi
    rw [glyph_byte_eq, glyph_idx_in_table e c i hgo hc hi]
    rfl

theorem ossd_putlx_data_count_witness :
    ∃ new, ossd_putlx env6x8 1 ⟨0x10, []⟩ 0 0 [97, 98] 0 = some ⟨0x10, [] ++ new⟩ ∧
      (data_txs new).length = 2 * 6 := by
  obtain ⟨new, h1, _, h3, _⟩ := ossd_putlx_data_count env6x8 0 ⟨0x10, []⟩ 0 0 [97, 98] 0
    (by decide)
  exact ⟨new, h1, h3⟩

/-- The log of a left-to-right draw: the switch to horizontal mode, for each
glyph position the cursor positioning and the glyph bytes, the mode restore. -/
theorem ossd_putlx_nonneg_log (e : Env) (fuel : Nat) (s : Dev) (line : Nat) (x : Int)
    (str : List Int) (atr : Nat) (hx : 0 ≤ x) :
    ossd_putlx e (fuel + 1) s line x str atr
      = some ⟨s.mode, s.log ++ (mode_txs s.mode 0
          ++ ((putlx_places e (line &&& 0x07) x str).flatMap (place_txs e atr 0)
          ++ mode_txs 0 s.mode))⟩ := by
  rw [ossd_putlx_nonneg e fuel s line x str atr hx, ossd_putlx_draw_eq]

theorem land7_le (line : Nat) : line &&& 7 ≤ 7 := by
  have h : line &&& 7 = line % 8 := Nat.and_pow_two_sub_one_eq_mod _ 3
  omega

theorem putlx_places_bounds (e : Env) (hW : e.bmfont.gw ≤ 128) (str : List Int) :
    ∀ (line : Nat) (x : Int), line ≤ 7 →
      ∀ p ∈ putlx_places e line x str, p.1 ≤ 7 ∧ p.2.1 ≤ 128 - e.bmfont.gw := by
  induction str with
  | nil => intro line x _ p hp; simp [putlx_places] at hp
  | cons c str ih =>
    intro line x hl p hp
    unfold putlx_places at hp
    by_cases hc : c = 0
    · simp [hc] at hp
    · simp only [hc, if_false, List.mem_cons] at hp
      by_cases hw : ((u8 x : Nat) : Int) > 128 - (e.bmfont.gw : Int)
      · simp only [hw, decide_True, if_true] at hp
        have hl1 := land7_le (line + (e.bmfont.gh + 7) / 8)
        rcases hp with rfl | hp
        · exact ⟨hl1, by show u8 0 ≤ _; simp [u8]⟩
        · exact ih _ _ hl1 p hp
      · simp only [hw, decide_False, if_false, Bool.false_eq_true] at hp
        rcases hp with rfl | hp
        · exact ⟨hl, by show u8 x ≤ _; omega⟩
        · exact ih _ _ hl p hp

/-- C11: for `0 ≤ x ≤ 127` and a glyph width `1 ≤ W ≤ 128`, every position at
which `ossd_putlx` draws a glyph has its page in 0..7 and its column in
`0 .. 128 - W`, so the column window `[column, column + W - 1]` ends at or
before column 127; the positions are those of the transactions of the call. -/
theorem ossd_putlx_cursor_bounds (e : Env) (fuel : Nat) (s : Dev) (line : Nat) (x : Int)
    (str : List Int) (atr : Nat) (hW1 : 1 ≤ e.bmfont.gw) (hW2 : e.bmfont.gw ≤ 128)
    (hx0 : 0 ≤ x) (hx1 : x ≤ 127) :
    ossd_putlx e (fuel + 1) s line x str atr
      = some ⟨s.mode, s.log ++ (mode_txs s.mode 0
          ++ ((putlx_places e (line &&& 0x07) x str).flatMap (place_txs e atr 0)
          ++ mode_txs 0 s.mode))⟩ ∧
    ∀ p ∈ putlx_places e (line &&& 0x07) x str,
      p.1 ≤ 7 ∧ p.2.1 ≤ 128 - e.bmfont.gw ∧ p.2.1 + e.bmfont.gw - 1 ≤ 127 := by
  refine ⟨ossd_putlx_nonneg_log e fuel s line x str atr hx0, ?_⟩
  intro p hp
  have h := putlx_places_bounds e hW2 str (line &&& 0x07) x (land7_le line) p hp
  have _ := hx1
  exact ⟨h.1, h.2, by omega⟩

theorem ossd_putlx_cursor_bounds_witness :
    ((2, 0, 98) : Nat × Nat × Int) ∈ putlx_places env6x8 (9 &&& 0x07) 120 [97, 98, 99] ∧
    ((2 : Nat) ≤ 7 ∧ (0 : Nat) ≤ 128 - env6x8.bmfont.gw ∧
      (0 : Nat) + env6x8.bmfont.gw - 1 ≤ 127) :=
  ⟨by decide,
   (ossd_putlx_cursor_bounds env6x8 0 ⟨0x10, []⟩ 9 120 [97, 98, 99] 0 (by decide) (by decide)
    (by decide) (by decide)).2 (2, 0, 98) (by decide)⟩

theorem mem_mode_txs (a b : Nat) (t : List Nat) (h : t ∈ mode_txs a b) :
    t = [0, 0x20, b] ∨ (b = 0x10 ∧ (t = [0, 0x22, 0, 7] ∨ t = [0, 0x21, 0, 127])) := by
  unfold mode_txs at h
  by_cases hab : a = b
  · simp [hab] at h
  · rw [if_neg hab] at h
    by_cases hb : b = 0x10
    · rw [if_pos hb] at h
      simp only [List.mem_cons, List.mem_singleton, List.not_mem_nil, or_false] at h
      rcases h with h | h | h
      · exact Or.inl h
      · exact Or.inr ⟨hb, Or.inl h⟩
      · exact Or.inr ⟨hb, Or.inr h⟩
    · rw [if_neg hb] at h
      simp only [List.mem_singleton] at h
      exact Or.inl h

theorem mem_place_txs (e : Env) (atr : Nat) (p : Nat × Nat × Int) (t : List Nat)
    (h : t ∈ place_txs e atr 0 p) :
    t = [0, 0x21, p.2.1, u8 ((p.2.1 : Int) + e.bmfont.gw - 1)] ∨
    t = [0, 0x22, p.1, u8 ((p.1 : Int) + 1)] ∨ ∃ d, t = [0x40, d] := by
  unfold place_txs goto_txs glyph_txs at h
  simp only [List.mem_append, List.mem_map] at h
  rcases h with h | ⟨i, _, rfl⟩
  · simp at h
    rcases h with h | h
    · exact Or.inl h
    · exact Or.inr (Or.inl h)
  · exact Or.inr (Or.inr ⟨_, rfl⟩)

/-- C12 (counterexample): drawing "a" on line 7 with the 6x8 font opens the
page window [7, 8]: the command [00 22 07 08] carries the page value 8, outside
the device pages 0..7. -/
theorem page_window_counterexample :
    (ossd_putlx env6x8 1 ⟨0x10, []⟩ 7 0 [97] 0).map (fun r => r.log.take 3)
      = some [[0x00, 0x20, 0x00], [0x00, 0x21, 0, 5], [0x00, 0x22, 7, 8]] ∧
    ¬ (8 ≤ 7) := by
  decide

/-- C12 (amended): for `0 ≤ x ≤ 127` and `1 ≤ W ≤ 128` the commands of an
`ossd_putlx` call are mode-set, column-window and page-window commands only.
Both ends of every column window lie in 0..127 and every page window starts in
0..7; its end is the start page plus one (or 7 for the full-screen reset), so
it lies in 1..8 and is 8 for a glyph drawn on page 7. -/
theorem ossd_putlx_window_bounds (e : Env) (fuel : Nat) (s : Dev) (line : Nat) (x : Int)
    (str : List Int) (atr : Nat) (hW1 : 1 ≤ e.bmfont.gw) (hW2 : e.bmfont.gw ≤ 128)
    (hx0 : 0 ≤ x) (hx1 : x ≤ 127) :
    ∃ new, ossd_putlx e (fuel + 1) s line x str atr = some ⟨s.mode, s.log ++ new⟩ ∧
      (∀ t ∈ new, t.head? = some 0x00 →
        (∃ m, t = [0x00, 0x20, m]) ∨ (∃ a b, t = [0x00, 0x21, a, b]) ∨
        (∃ a b, t = [0x00, 0x22, a, b])) ∧
      (∀ a b, [0x00, 0x21, a, b] ∈ new → a ≤ b ∧ b ≤ 127) ∧
      (∀ a b, [0x00, 0x22, a, b] ∈ new →
        a ≤ 7 ∧ b ≤ 8 ∧ (b = a + 1 ∨ (a = 0 ∧ b = 7))) := by
  have _ := hx1
  refine ⟨_, ossd_putlx_nonneg_log e fuel s line x str atr hx0, ?_⟩
  have hb := putlx_places_bounds e hW2 str (line &&& 0x07) x (land7_le line)
  have key : ∀ t, t ∈ mode_txs s.mode 0
        ++ ((putlx_places e (line &&& 0x07) x str).flatMap (place_txs e atr 0)
        ++ mode_txs 0 s.mode) →
      (∃ m, t = [0x00, 0x20, m]) ∨ t = [0, 0x22, 0, 7] ∨ t = [0, 0x21, 0, 127] ∨
      (∃ d, t = [0x40, d]) ∨
      (∃ l c, l ≤ 7 ∧ c ≤ 128 - e.bmfont.gw ∧
        (t = [0, 0x21, c, c + e.bmfont.gw - 1] ∨ t = [0, 0x22, l, l + 1])) := by
    intro t ht
    simp only [List.mem_append, List.mem_flatMap] at ht
    rcases ht with ht | ⟨p, hp, ht⟩ | ht
    · rcases mem_mode_txs _ _ _ ht with h | ⟨_, h | h⟩
      · exact Or.inl ⟨_, h⟩
      · exact Or.inr (Or.inl h)
      · exact Or.inr (Or.inr (Or.inl h))
    · have hpb := hb p hp
      have h1 : u8 ((p.2.1 : Int) + e.bmfont.gw - 1) = p.2.1 + e.bmfont.gw - 1 := by
        unfold u8; omega
      have h2 : u8 ((p.1 : Int) + 1) = p.1 + 1 := by unfold u8; omega
      rcases mem_place_txs e atr p t ht with h | h | h
      · rw [h1] at h
        exact Or.inr (Or.inr (Or.inr (Or.inr ⟨p.1, p.2.1, hpb.1, hpb.2, Or.inl h⟩)))
      · rw [h2] at h
        exact Or.inr (Or.inr (Or.inr (Or.inr ⟨p.1, p.2.1, hpb.1, hpb.2, Or.inr h⟩)))
      · exact Or.inr (Or.inr (Or.inr (Or.inl h)))
    · rcases mem_mode_txs _ _ _ ht with h | ⟨_, h | h⟩
      · exact Or.inl ⟨_, h⟩
      · exact Or.inr (Or.inl h)
      · exact Or.inr (Or.inr (Or.inl h))
  refine ⟨?_, ?_, ?_⟩
  · intro t ht hh
    rcases key t ht with ⟨m, h⟩ | h | h | ⟨d, h⟩ | ⟨l, c, _, _, h | h⟩
    · exact Or.inl ⟨m, h⟩
    · exact Or.inr (Or.inr ⟨_, _, h⟩)
    · exact Or.inr (Or.inl ⟨_, _, h⟩)
    · rw [h] at hh; simp at hh
    · exact Or.inr (Or.inl ⟨_, _, h⟩)
    · exact Or.inr (Or.inr ⟨_, _, h⟩)
  · intro a b hab
    rcases key _ hab with ⟨m, h⟩ | h | h | ⟨d, h⟩ | ⟨l, c, _, hc, h | h⟩
    · simp at h
    · simp at h
    · simp at h; omega
    · simp at h
    · simp at h; omega
    · simp at h
  · intro a b hab
    rcases key _ hab with ⟨m, h⟩ | h | h | ⟨d, h⟩ | ⟨l, c, hl, _, h | h⟩
    · simp at h
    · simp at h; omega
    · simp at h
    · simp at h
    · simp at h
    · simp at h; omega

theorem ossd_putlx_window_bounds_witness :
    ∃ new, ossd_putlx env6x8 1 ⟨0x10, []⟩ 7 0 [97] 0 = some ⟨0x10, [] ++ new⟩ ∧
      (∀ a b, [0x00, 0x21, a, b] ∈ new → a ≤ b ∧ b ≤ 127) := by
  obtain ⟨new, h1, _, h3, _⟩ := ossd_putlx_window_bounds env6x8 0 ⟨0x10, []⟩ 7 0 [97] 0
    (by decide) (by decide) (by decide) (by decide)
  exact ⟨new, h1, h3⟩

/-! ## Transport failures during a draw -/

theorem putlx_places_busy (e : Env) (b : Nat → Bool) (str : List Int) :
    ∀ (line : Nat) (x : Int),
      putlx_places { e with busy := b } line x str = putlx_places e line x str := by
  induction str with
  | nil => intro _ _; rfl
  | cons c str ih =>
    intro line x
    unfold putlx_places
    simp only [ih]

theorem place_txs_busy (e : Env) (b : Nat → Bool) (atr mode : Nat) :
    place_txs { e with busy := b } atr mode = place_txs e atr mode := rfl

theorem ossd_putlx_draw_busy (e : Env) (b : Nat → Bool) (s : Dev) (line : Nat) (x : Int)
    (str : List Int) (atr : Nat) :
    ossd_putlx_draw { e with busy := b } s line x str atr = ossd_putlx_draw e s line x str atr := by
  rw [ossd_putlx_draw_eq, ossd_putlx_draw_eq, putlx_places_busy, place_txs_busy]

theorem centre_clear_busy (e : Env) (b : Nat → Bool) (s : Dev) (line col x : Nat) :
    centre_clear { e with busy := b } s line col x = centre_clear e s line col x := by
  rw [centre_clear_eq, centre_clear_eq]
  rfl

theorem ossd_putlx_busy (e : Env) (b : Nat → Bool) (fuel : Nat) :
    ∀ (s : Dev) (line : Nat) (x : Int) (str : List Int) (atr : Nat),
      ossd_putlx { e with busy := b } fuel s line x str atr = ossd_putlx e fuel s line x str atr := by
  induction fuel with
  | zero => intro _ _ _ _ _; rfl
  | succ f ih =>
    intro s line x str atr
    rw [ossd_putlx, ossd_putlx]
    by_cases hx : x < 0
    · simp only [hx, if_true]
      unfold ossd_put_centre
      have hih : ossd_putlx { e with busy := b } f = ossd_putlx e f := by
        funext s line x str atr
        exact ih s line x str atr
      simp only [hih, centre_clear_busy]
    · simp only [hx, if_false, ossd_putlx_draw_busy]

/-- C13 (counterexample): with the 6x8 font and a transport whose transaction
number 2 fails, drawing "a" in horizontal mode loses the first glyph byte (134)
and goes on: all 8 transactions are handed to the transport, and the five
remaining glyph bytes 135..139 reach the device after the failure. -/
theorem write_failure_counterexample :
    env6x8_fail2.busy 2 = true ∧
    (ossd_putlx env6x8_fail2 1 ⟨0x00, []⟩ 0 0 [97] 0).map (fun r => r.log.length) = some 8 ∧
    (ossd_putlx env6x8_fail2 1 ⟨0x00, []⟩ 0 0 [97] 0).map (fun r => wire env6x8_fail2 r.log)
      = some [[0x00, 0x21, 0, 5], [0x00, 0x22, 0, 1], [0x40, 135], [0x40, 136], [0x40, 137],
          [0x40, 138], [0x40, 139]] := by
  decide

/-- C13 (amended): `ossd_putlx` ignores the result of every transport write.
The transactions it hands to the transport, and the state it returns, are the
same whatever writes fail; a left-to-right draw always attempts every byte of
every glyph of the text. -/
theorem ossd_putlx_ignores_failures (e : Env) (b : Nat → Bool) (fuel : Nat) (s : Dev)
    (line : Nat) (x : Int) (str : List Int) (atr : Nat) :
    ossd_putlx { e with busy := b } fuel s line x str atr
      = ossd_putlx e fuel s line x str atr ∧
    (0 ≤ x →
      ∃ new, ossd_putlx { e with busy := b } (fuel + 1) s line x str atr
          = some ⟨s.mode, s.log ++ new⟩ ∧
        data_txs new = (chars str).flatMap (fun c =>
          (List.range (glyph_gb e)).map (fun i => [0x40, glyph_byte e atr (glyph_idx e c) i]))) := by
  refine ⟨ossd_putlx_busy e b fuel s line x str atr, ?_⟩
  intro hx
  rw [ossd_putlx_busy]
  exact ossd_putlx_data e fuel s line x str atr hx

theorem ossd_putlx_ignores_failures_witness :
    ∃ new, ossd_putlx { env6x8 with busy := fun _ => true } 1 ⟨0x00, []⟩ 0 0 [97] 0
        = some ⟨0x00, [] ++ new⟩ ∧
      data_txs new = [97].flatMap (fun c =>
        (List.range (glyph_gb env6x8)).map
          (fun i => [0x40, glyph_byte env6x8 0 (glyph_idx env6x8 c) i])) :=
  (ossd_putlx_ignores_failures env6x8 (fun _ => true) 0 ⟨0x00, []⟩ 0 0 [97] 0).2 (by decide)

/-! ## The centred draw -/

/-- The log of a centred draw of a text shorter than 256 characters: the left
margin, the left-to-right draw from the centred column, the right margin. -/
theorem ossd_putlx_centred_log (e : Env) (fuel : Nat) (s : Dev) (line : Nat) (x : Int)
    (str : List Int) (atr : Nat) (hx : x < 0) (hL : strlen str < 256)
    (hf : strlen str + 2 ≤ fuel) :
    ossd_putlx e fuel s line x str atr
      = some ⟨s.mode, s.log ++
          ((if centre_x ((strlen str * e.bmfont.gw) % 65536) ≠ 0 then
              clear_txs e s.mode (line &&& 0x07) 0 (centre_x ((strlen str * e.bmfont.gw) % 65536))
            else [])
          ++ (mode_txs s.mode 0
            ++ ((putlx_places e (line &&& 0x07)
                  (centre_x ((strlen str * e.bmfont.gw) % 65536)) str).flatMap (place_txs e atr 0)
            ++ mode_txs 0 s.mode))
          ++ (if centre_x ((strlen str * e.bmfont.gw) % 65536) ≠ 0 then
              clear_txs e s.mode (line &&& 0x07)
                (u8 ((centre_x ((strlen str * e.bmfont.gw) % 65536) : Int)
                  + ((strlen str * e.bmfont.gw) % 65536 : Nat)))
                (centre_x ((strlen str * e.bmfont.gw) % 65536))
            else []))⟩ := by
  rw [ossd_putlx_centred e fuel s line x str atr hx hL hf]
  by_cases hxc : centre_x ((strlen str * e.bmfont.gw) % 65536) = 0
  · simp [hxc, ossd_putlx_draw_eq]
  · simp [hxc, ossd_putlx_draw_eq, centre_clear_eq, List.append_assoc]

theorem spec_layout_nowrap (W b line X : Nat) (str : List Int) :
    ∀ n, X + (n + strlen str) * W ≤ 128 →
      spec_layout W b line (X + n * W) str
        = ((chars str).enumFrom n).map (fun kc => (line, X + kc.1 * W, kc.2)) := by
  induction str with
  | nil => intro n _; rfl
  | cons c str ih =>
    intro n h
    unfold spec_layout chars
    by_cases hc : c = 0
    · simp [hc]
    · unfold strlen at h
      simp only [hc, if_false] at h ⊢
      have e1 : (n + (strlen str + 1)) * W = n * W + strlen str * W + W := by ring
      have e2 : (n + 1 + strlen str) * W = n * W + strlen str * W + W := by ring
      have e3 : (n + 1) * W = n * W + W := by ring
      have hw : ¬ (X + n * W > 128 - W) := by omega
      simp only [hw, decide_False, if_false, Bool.false_eq_true, List.enumFrom_cons, List.map_cons]
      have := ih (n + 1) (by omega)
      rw [e3, ← Nat.add_assoc] at this
      rw [this]

theorem places_nil_of_strlen_zero (e : Env) (line : Nat) (str : List Int)
    (h : strlen str = 0) :
    (∀ x, putlx_places e line x str = []) ∧ chars str = [] := by
  cases str with
  | nil => exact ⟨fun _ => rfl, rfl⟩
  | cons c t =>
    unfold strlen at h
    by_cases hc : c = 0
    · exact ⟨fun _ => by simp [putlx_places, hc], by simp [chars, hc]⟩
    · simp [hc] at h

/-- The glyph positions of a text that fits the line from its centred start
column: no wrap, glyph `k` at column `x0 + k * W`. -/
theorem putlx_places_centred (e : Env) (line : Nat) (str : List Int)
    (hW : 1 ≤ e.bmfont.gw) (hfit : strlen str * e.bmfont.gw ≤ 128) :
    putlx_places e line (((128 - strlen str * e.bmfont.gw) / 2 : Nat) : Int) str
      = ((chars str).enum).map
          (fun kc => (line, (128 - strlen str * e.bmfont.gw) / 2 + kc.1 * e.bmfont.gw, kc.2)) := by
  rcases Nat.eq_zero_or_pos (strlen str) with h0 | hpos
  · have hnil := places_nil_of_strlen_zero e line str h0
    rw [hnil.1, hnil.2]
    rfl
  · have hle : e.bmfont.gw ≤ strlen str * e.bmfont.gw := Nat.le_mul_of_pos_left _ hpos
    have hW2 : e.bmfont.gw ≤ 128 := by omega
    have h1 := putlx_places_eq_spec e hW hW2 str line ((128 - strlen str * e.bmfont.gw) / 2)
      (by omega)
    have hi : i8 (((128 - strlen str * e.bmfont.gw) / 2 : Nat) : Int)
        = (((128 - strlen str * e.bmfont.gw) / 2 : Nat) : Int) := by
      unfold i8; omega
    rw [hi] at h1
    rw [h1]
    have h2 := spec_layout_nowrap e.bmfont.gw ((e.bmfont.gh + 7) / 8) line
      ((128 - strlen str * e.bmfont.gw) / 2) str 0 (by rw [Nat.zero_add]; omega)
    rw [Nat.zero_mul] at h2
    exact h2

theorem centre_x_of_le (len : Nat) (h : len ≤ 128) : centre_x len = (128 - len) / 2 := by
  unfold centre_x
  rw [if_neg (by omega)]

theorem u8_centre_end (len : Nat) (h : len ≤ 128) :
    u8 ((((128 - len) / 2 : Nat) : Int) + (len : Nat)) = (128 - len) / 2 + len := by
  unfold u8
  omega

/-- The centred draw of a text that fits the line (`L * W ≤ 128`, `W ≥ 1`):
margins of width `x0 = (128 - L*W)/2` and glyph `k` at column `x0 + k * W` of
the masked line. -/
theorem ossd_putlx_centred_fit (e : Env) (fuel : Nat) (s : Dev) (line : Nat) (x : Int)
    (str : List Int) (atr : Nat) (hx : x < 0) (hW : 1 ≤ e.bmfont.gw)
    (hfit : strlen str * e.bmfont.gw ≤ 128) (hf : strlen str + 2 ≤ fuel) :
    ossd_putlx e fuel s line x str atr
      = some ⟨s.mode, s.log ++
          ((if (128 - strlen str * e.bmfont.gw) / 2 ≠ 0 then
              clear_txs e s.mode (line &&& 0x07) 0 ((128 - strlen str * e.bmfont.gw) / 2)
            else [])
          ++ (mode_txs s.mode 0
            ++ (((chars str).enum.map (fun kc =>
                  (line &&& 0x07, (128 - strlen str * e.bmfont.gw) / 2 + kc.1 * e.bmfont.gw,
                    kc.2))).flatMap (place_txs e atr 0)
            ++ mode_txs 0 s.mode))
          ++ (if (128 - strlen str * e.bmfont.gw) / 2 ≠ 0 then
              clear_txs e s.mode (line &&& 0x07)
                ((128 - strlen str * e.bmfont.gw) / 2 + strlen str * e.bmfont.gw)
                ((128 - strlen str * e.bmfont.gw) / 2)
            else []))⟩ := by
  have hle : strlen str ≤ strlen str * e.bmfont.gw := Nat.le_mul_of_pos_right _ hW
  have hmod : (strlen str * e.bmfont.gw) % 65536 = strlen str * e.bmfont.gw :=
    Nat.mod_eq_of_lt (by omega)
  rw [ossd_putlx_centred_log e fuel s line x str atr hx (by omega) hf, hmod,
    centre_x_of_le _ hfit, u8_centre_end _ hfit, putlx_places_centred e _ str hW hfit]

/-- C14: a centred draw (`x < 0`) of `L ≥ 1` characters with `L * W ≤ 128`
(and `W ≥ 1`) does not wrap: glyph `k` is drawn on line `line & 7` at column
`(128 - L*W)/2 + k * W`.  The transactions of the call are the left margin,
the switch to horizontal mode, the glyphs at these positions, the mode
restore, and the right margin. -/
theorem centred_glyph_columns (e : Env) (fuel : Nat) (s : Dev) (line : Nat) (x : Int)
    (str : List Int) (atr : Nat) (hx : x < 0) (hL : 1 ≤ strlen str) (hW : 1 ≤ e.bmfont.gw)
    (hfit : strlen str * e.bmfont.gw ≤ 128) (hf : strlen str + 2 ≤ fuel) :
    putlx_places e (line &&& 0x07) (((128 - strlen str * e.bmfont.gw) / 2 : Nat) : Int) str
      = (chars str).enum.map (fun kc =>
          (line &&& 0x07, (128 - strlen str * e.bmfont.gw) / 2 + kc.1 * e.bmfont.gw, kc.2)) ∧
    ossd_putlx e fuel s line x str atr
      = some ⟨s.mode, s.log ++
          ((if (128 - strlen str * e.bmfont.gw) / 2 ≠ 0 then
              clear_txs e s.mode (line &&& 0x07) 0 ((128 - strlen str * e.bmfont.gw) / 2)
            else [])
          ++ (mode_txs s.mode 0
            ++ (((chars str).enum.map (fun kc =>
                  (line &&& 0x07, (128 - strlen str * e.bmfont.gw) / 2 + kc.1 * e.bmfont.gw,
                    kc.2))).flatMap (place_txs e atr 0)
            ++ mode_txs 0 s.mode))
          ++ (if (128 - strlen str * e.bmfont.gw) / 2 ≠ 0 then
              clear_txs e s.mode (line &&& 0x07)
                ((128 - strlen str * e.bmfont.gw) / 2 + strlen str * e.bmfont.gw)
                ((128 - strlen str * e.bmfont.gw) / 2)
            else []))⟩ := by
  have _ := hL
  exact ⟨putlx_places_centred e _ str hW hfit,
    ossd_putlx_centred_fit e fuel s line x str atr hx hW hfit hf⟩

theorem centred_glyph_columns_witness :
    putlx_places env6x8 (2 &&& 0x07) 55 [97, 98, 99] = [(2, 55, 97), (2, 61, 98), (2, 67, 99)] ∧
    ossd_putlx env6x8 5 ⟨0x10, []⟩ 2 (-1) [97, 98, 99] 0
      = some ⟨0x10, clear_txs env6x8 0x10 2 0 55
          ++ ([[0x00, 0x20, 0x00]]
            ++ ([(2, 55, 97), (2, 61, 98), (2, 67, 99)].flatMap (place_txs env6x8 0 0)
            ++ [[0x00, 0x20, 0x10], [0x00, 0x22, 0, 7], [0x00, 0x21, 0, 127]]))
          ++ clear_txs env6x8 0x10 2 73 55⟩ :=
  ⟨(centred_glyph_columns env6x8 5 ⟨0x10, []⟩ 2 (-1) [97, 98, 99] 0 (by decide) (by decide)
      (by decide) (by decide) (by decide)).1.trans (by decide),
   (centred_glyph_columns env6x8 5 ⟨0x10, []⟩ 2 (-1) [97, 98, 99] 0 (by decide) (by decide)
      (by decide) (by decide) (by decide)).2.trans (by decide)⟩

theorem clear_txs_eq (e : Env) (mode l col x : Nat) (hl : l ≤ 7) (hgh : e.bmfont.gh < 256) :
    clear_txs e mode l col x
      = (List.range ((e.bmfont.gh + 7) / 8)).flatMap
          (fun i => goto_txs e mode (l + i) col ++ [0x40 :: List.replicate x 0]) := by
  unfold clear_txs
  apply List.flatMap_congr
  intro i hi
  rw [List.mem_range] at hi
  have hu : u8 ((l : Int) + i) = l + i := by unfold u8; omega
  rw [hu]

/-- C15: for a centred draw of a text shorter than 256 characters, with pixel
length `len = L * W` and computed start column `x0`: when `x0 > 0` the call
emits, for each row-band `i = 0 .. (gh+7)/8 - 1`, a cursor positioning at
`(line + i, 0)` and one data transaction of `x0` zero bytes, then the
left-to-right draw with its mode switch and restore, then for each row-band a
cursor positioning at `(line + i, x0 + len)` and one data transaction of `x0`
zero bytes; when `x0 = 0` it emits the left-to-right draw only. -/
theorem centred_margins (e : Env) (fuel : Nat) (s : Dev) (line : Nat) (x : Int)
    (str : List Int) (atr : Nat) (hx : x < 0) (hL : strlen str < 256)
    (hgw : e.bmfont.gw < 256) (hgh : e.bmfont.gh < 256) (hf : strlen str + 2 ≤ fuel) :
    (centre_x (strlen str * e.bmfont.gw) ≠ 0 →
      ossd_putlx e fuel s line x str atr
        = some ⟨s.mode, s.log ++
            ((List.range ((e.bmfont.gh + 7) / 8)).flatMap (fun i =>
                goto_txs e s.mode ((line &&& 0x07) + i) 0
                  ++ [0x40 :: List.replicate (centre_x (strlen str * e.bmfont.gw)) 0])
            ++ (mode_txs s.mode 0
              ++ ((putlx_places e (line &&& 0x07) (centre_x (strlen str * e.bmfont.gw))
                    str).flatMap (place_txs e atr 0)
              ++ mode_txs 0 s.mode))
            ++ (List.range ((e.bmfont.gh + 7) / 8)).flatMap (fun i =>
                goto_txs e s.mode ((line &&& 0x07) + i)
                    (centre_x (strlen str * e.bmfont.gw) + strlen str * e.bmfont.gw)
                  ++ [0x40 :: List.replicate (centre_x (strlen str * e.bmfont.gw)) 0]))⟩) ∧
    (centre_x (strlen str * e.bmfont.gw) = 0 →
      ossd_putlx e fuel s line x str atr
        = some ⟨s.mode, s.log ++
            (mode_txs s.mode 0
              ++ ((putlx_places e (line &&& 0x07) (centre_x (strlen str * e.bmfont.gw))
                    str).flatMap (place_txs e atr 0)
              ++ mode_txs 0 s.mode))⟩) := by
  have hprod : strlen str * e.bmfont.gw ≤ 255 * 255 :=
    Nat.mul_le_mul (by omega) (by omega)
  have hmod : (strlen str * e.bmfont.gw) % 65536 = strlen str * e.bmfont.gw :=
    Nat.mod_eq_of_lt (by omega)
  have hlog := ossd_putlx_centred_log e fuel s line x str atr hx hL hf
  rw [hmod] at hlog
  constructor
  · intro h0
    have hlen : strlen str * e.bmfont.gw ≤ 128 := by
      by_contra hgt
      exact h0 (by unfold centre_x; rw [if_pos (by omega)])
    have hu : u8 ((centre_x (strlen str * e.bmfont.gw) : Int)
          + ((strlen str * e.bmfont.gw : Nat) : Int))
        = centre_x (strlen str * e.bmfont.gw) + strlen str * e.bmfont.gw := by
      rw [centre_x_of_le _ hlen]
      exact u8_centre_end _ hlen
    rw [hlog, if_pos h0, if_pos h0, hu, clear_txs_eq e _ _ _ _ (land7_le line) hgh,
      clear_txs_eq e _ _ _ _ (land7_le line) hgh]
  · intro h0
    rw [hlog]
    simp [h0]

theorem centred_margins_witness :
    ossd_putlx env6x8 5 ⟨0x10, []⟩ 2 (-1) [97, 98, 99] 0
      = some ⟨0x10,
          [[0x00, 0xB2], [0x00, 0x00], [0x00, 0x10], 0x40 :: List.replicate 55 0]
          ++ ([[0x00, 0x20, 0x00]]
            ++ ([(2, 55, 97), (2, 61, 98), (2, 67, 99)].flatMap (place_txs env6x8 0 0)
            ++ [[0x00, 0x20, 0x10], [0x00, 0x22, 0, 7], [0x00, 0x21, 0, 127]]))
          ++ [[0x00, 0xB2], [0x00, 0x09], [0x00, 0x14], 0x40 :: List.replicate 55 0]⟩ :=
  ((centred_margins env6x8 5 ⟨0x10, []⟩ 2 (-1) [97, 98, 99] 0 (by decide) (by decide)
      (by decide) (by decide) (by decide)).1 (by decide)).trans (by decide)

theorem range'_three (a b : Nat) :
    List.range' 0 a ++ List.range' a b ++ List.range' (a + b) a = List.range (2 * a + b) := by
  have h1 := List.range'_append_1 0 a b
  rw [Nat.zero_add] at h1
  have h2 := List.range'_append_1 0 (b + a) a
  rw [Nat.zero_add, Nat.add_comm b a] at h2
  rw [h1, Nat.add_comm b a, h2, List.range_eq_range']
  congr 1
  omega

/-- C19: for a centred draw with pixel length `len = L * W ≤ 128` (and
`W ≥ 1`) the start column is `x0 = (128 - len)/2`; the call clears `x0`
columns from column 0, draws glyph `k` at column `x0 + k * W`, and clears `x0`
columns from column `x0 + len`.  The column ranges `[0, x0)`, `[x0, x0+len)`
and `[x0+len, 2*x0+len)` follow one another without gap or overlap and make up
`[0, 2*x0+len)`, where `2*x0 + len` is 128 for even `len` and 127 for odd
`len`: column 127 is then outside all three. -/
theorem centred_ranges (e : Env) (fuel : Nat) (s : Dev) (line : Nat) (x : Int)
    (str : List Int) (atr : Nat) (hx : x < 0) (hW : 1 ≤ e.bmfont.gw)
    (hfit : strlen str * e.bmfont.gw ≤ 128) (hf : strlen str + 2 ≤ fuel) :
    centre_x (strlen str * e.bmfont.gw) = (128 - strlen str * e.bmfont.gw) / 2 ∧
    ossd_putlx e fuel s line x str atr
      = some ⟨s.mode, s.log ++
          ((if (128 - strlen str * e.bmfont.gw) / 2 ≠ 0 then
              clear_txs e s.mode (line &&& 0x07) 0 ((128 - strlen str * e.bmfont.gw) / 2)
            else [])
          ++ (mode_txs s.mode 0
            ++ (((chars str).enum.map (fun kc =>
                  (line &&& 0x07, (128 - strlen str * e.bmfont.gw) / 2 + kc.1 * e.bmfont.gw,
                    kc.2))).flatMap (place_txs e atr 0)
            ++ mode_txs 0 s.mode))
          ++ (if (128 - strlen str * e.bmfont.gw) / 2 ≠ 0 then
              clear_txs e s.mode (line &&& 0x07)
                ((128 - strlen str * e.bmfont.gw) / 2 + strlen str * e.bmfont.gw)
                ((128 - strlen str * e.bmfont.gw) / 2)
            else []))⟩ ∧
    List.range' 0 ((128 - strlen str * e.bmfont.gw) / 2)
        ++ List.range' ((128 - strlen str * e.bmfont.gw) / 2) (strlen str * e.bmfont.gw)
        ++ List.range' ((128 - strlen str * e.bmfont.gw) / 2 + strlen str * e.bmfont.gw)
            ((128 - strlen str * e.bmfont.gw) / 2)
      = List.range (2 * ((128 - strlen str * e.bmfont.gw) / 2) + strlen str * e.bmfont.gw) ∧
    ((strlen str * e.bmfont.gw) % 2 = 0 →
      2 * ((128 - strlen str * e.bmfont.gw) / 2) + strlen str * e.bmfont.gw = 128) ∧
    ((strlen str * e.bmfont.gw) % 2 = 1 →
      2 * ((128 - strlen str * e.bmfont.gw) / 2) + strlen str * e.bmfont.gw = 127) ∧
    (strlen str = 0 → (128 - strlen str * e.bmfont.gw) / 2 = 64) := by
  refine ⟨centre_x_of_le _ hfit, ossd_putlx_centred_fit e fuel s line x str atr hx hW hfit hf,
    range'_three _ _, ?_, ?_, ?_⟩
  · intro h; omega
  · intro h; omega
  · intro h; rw [h, Nat.zero_mul]

theorem centred_ranges_witness :
    centre_x (strlen [97, 98, 99] * env6x8.bmfont.gw) = 55 ∧
    2 * ((128 - strlen [97, 98, 99] * env6x8.bmfont.gw) / 2)
      + strlen [97, 98, 99] * env6x8.bmfont.gw = 128 :=
  ⟨(centred_ranges env6x8 5 ⟨0x10, []⟩ 2 (-1) [97, 98, 99] 0 (by decide) (by decide)
      (by decide) (by decide)).1.trans (by decide),
   (centred_ranges env6x8 5 ⟨0x10, []⟩ 2 (-1) [97, 98, 99] 0 (by decide) (by decide)
      (by decide) (by decide)).2.2.2.1 (by decide)⟩

/-! ## Two-band fonts on even lines -/

theorem putlx_places_even (e : Env) (hgh : e.bmfont.gh = 16) (str : List Int) :
    ∀ (line : Nat) (x : Int), line % 2 = 0 →
      ∀ p ∈ putlx_places e line x str, p.1 % 2 = 0 := by
  induction str with
  | nil => intro line x _ p hp; simp [putlx_places] at hp
  | cons c str ih =>
    intro line x hl p hp
    unfold putlx_places at hp
    by_cases hc : c = 0
    · simp [hc] at hp
    · simp only [hc, if_false, List.mem_cons] at hp
      have h7 : (line + (e.bmfont.gh + 7) / 8) &&& 7 = (line + (e.bmfont.gh + 7) / 8) % 8 :=
        Nat.and_pow_two_sub_one_eq_mod _ 3
      have hl1 : ((line + (e.bmfont.gh + 7) / 8) &&& 7) % 2 = 0 := by
        rw [h7, hgh]; omega
      by_cases hw : ((u8 x : Nat) : Int) > 128 - (e.bmfont.gw : Int)
      · simp only [hw, decide_True, if_true] at hp
        rcases hp with rfl | hp
        · exact hl1
        · exact ih _ _ hl1 p hp
      · simp only [hw, decide_False, if_false, Bool.false_eq_true] at hp
        rcases hp with rfl | hp
        · exact hl
        · exact ih _ _ hl p hp

theorem mem_page_window (e : Env) (atr m : Nat) (places : List (Nat × Nat × Int)) (a b : Nat)
    (h : [0x00, 0x22, a, b] ∈ mode_txs m 0
        ++ (places.flatMap (place_txs e atr 0) ++ mode_txs 0 m)) :
    (a = 0 ∧ b = 7) ∨ ∃ p ∈ places, a = p.1 ∧ b = u8 ((p.1 : Int) + 1) := by
  simp only [List.mem_append, List.mem_flatMap] at h
  rcases h with h | ⟨p, hp, h⟩ | h
  · rcases mem_mode_txs _ _ _ h with h | ⟨_, h | h⟩
    · simp at h
    · simp at h; exact Or.inl h
    · simp at h
  · rcases mem_place_txs e atr p _ h with h | h | ⟨d, h⟩
    · simp at h
    · simp at h; exact Or.inr ⟨p, hp, h.1, h.2⟩
    · simp at h
  · rcases mem_mode_txs _ _ _ h with h | ⟨_, h | h⟩
    · simp at h
    · simp at h; exact Or.inl h
    · simp at h

/-- C20: with a font two row-bands tall (`gh = 16`), `1 ≤ W ≤ 128`, an even
masked line and `0 ≤ x ≤ 127`, every glyph of every text is drawn on an even
line, across all wraps, so every page window `[p, p+1]` of the call ends at or
before page 7. -/
theorem ossd_putlx_even_lines (e : Env) (fuel : Nat) (s : Dev) (line : Nat) (x : Int)
    (str : List Int) (atr : Nat) (hgh : e.bmfont.gh = 16) (hW1 : 1 ≤ e.bmfont.gw)
    (hW2 : e.bmfont.gw ≤ 128) (heven : (line &&& 0x07) % 2 = 0) (hx0 : 0 ≤ x) (hx1 : x ≤ 127) :
    ossd_putlx e (fuel + 1) s line x str atr
      = some ⟨s.mode, s.log ++ (mode_txs s.mode 0
          ++ ((putlx_places e (line &&& 0x07) x str).flatMap (place_txs e atr 0)
          ++ mode_txs 0 s.mode))⟩ ∧
    (∀ p ∈ putlx_places e (line &&& 0x07) x str, p.1 % 2 = 0 ∧ p.1 + 1 ≤ 7) ∧
    (∀ a b, [0x00, 0x22, a, b] ∈ mode_txs s.mode 0
          ++ ((putlx_places e (line &&& 0x07) x str).flatMap (place_txs e atr 0)
          ++ mode_txs 0 s.mode) →
      a % 2 = 0 ∧ b ≤ 7 ∧ (b = a + 1 ∨ (a = 0 ∧ b = 7))) := by
  have _ := hW1
  have _ := hx1
  have hev := putlx_places_even e hgh str (line &&& 0x07) x heven
  have hb := putlx_places_bounds e hW2 str (line &&& 0x07) x (land7_le line)
  have hp : ∀ p ∈ putlx_places e (line &&& 0x07) x str, p.1 % 2 = 0 ∧ p.1 + 1 ≤ 7 := by
    intro p hp
    have h1 := hev p hp
    have h2 := (hb p hp).1
    exact ⟨h1, by omega⟩
  refine ⟨ossd_putlx_nonneg_log e fuel s line x str atr hx0, hp, ?_⟩
  intro a b hab
  rcases mem_page_window e atr s.mode _ a b hab with ⟨ha, hb7⟩ | ⟨p, hpm, ha, hbp⟩
  · subst ha; subst hb7
    exact ⟨rfl, by omega, Or.inr ⟨rfl, rfl⟩⟩
  · have h := hp p hpm
    have hu : u8 ((p.1 : Int) + 1) = p.1 + 1 := by unfold u8; omega
    rw [hu] at hbp
    subst ha; subst hbp
    exact ⟨h.1, h.2, Or.inl rfl⟩

theorem ossd_putlx_even_lines_witness :
    ((0, 0, 98) : Nat × Nat × Int) ∈ putlx_places env8x16 (6 &&& 0x07) 120 [97, 98, 99] ∧
    ((0 : Nat) % 2 = 0 ∧ (0 : Nat) + 1 ≤ 7) :=
  ⟨by decide,
   (ossd_putlx_even_lines env8x16 0 ⟨0x10, []⟩ 6 120 [97, 98, 99] 0 (by decide) (by decide)
    (by decide) (by decide) (by decide) (by decide)).2.1 (0, 0, 98) (by decide)⟩

/-! ## Reachable states and the tracked mode -/

end OSSD

namespace CLI

/-! ## The line command interpreter -/

theorem take_fits (k : Consts) (buf : List Char) (h : buf.length ≤ k.CMD_LEN) :
    buf.take (k.CMD_LEN + 1) = buf :=
  List.take_of_length_le (by omega)

/-- C16: for every value of `flags`, the command line "echo off" (which fits
the command buffer) makes `cli_proc` return 0 and set `flags` to
`flags AND (ECHO_RHT | ECHO_THIST | VERBOSE_MODE)`: each bit of the result is
the old bit where the mask has a bit, and 0 elsewhere.  The same holds for
every line whose command word is `echo` and whose first argument word is
`off`. -/
theorem echo_off_masks_flags (k : Consts) (flags : Nat) (hlen : 8 ≤ k.CMD_LEN) :
    cli_proc k flags "echo off".toList
      = ⟨0, flags &&& (k.ECHO_RHT ||| k.ECHO_THIST ||| k.VERBOSE_MODE), none⟩ ∧
    (∀ i, (cli_proc k flags "echo off".toList).flags.testBit i
      = (flags.testBit i && (k.ECHO_RHT ||| k.ECHO_THIST ||| k.VERBOSE_MODE).testBit i)) ∧
    (∀ buf : List Char, buf.length ≤ k.CMD_LEN → (get_arg buf).1 = "echo".toList →
      (get_arg buf).2 ≠ [] → (get_arg (get_arg buf).2).1 = "off".toList →
      cli_proc k flags buf
        = ⟨0, flags &&& (k.ECHO_RHT ||| k.ECHO_THIST ||| k.VERBOSE_MODE), none⟩) := by
  have h : cli_proc k flags "echo off".toList
      = ⟨0, flags &&& (k.ECHO_RHT ||| k.ECHO_THIST ||| k.VERBOSE_MODE), none⟩ := by
    unfold cli_proc
    rw [take_fits k _ (by show 8 ≤ k.CMD_LEN; exact hlen)]
    rfl
  refine ⟨h, ?_, ?_⟩
  · intro i
    rw [h]
    exact Nat.testBit_and _ _ i
  · intro buf hfit hc hne hoff
    unfold cli_proc
    rw [take_fits k buf hfit]
    simp +decide [str_is, hc, hne] at hoff ⊢
    intro hno
    exact absurd hoff hno

theorem echo_off_masks_flags_witness :
    cli_proc consts0 0xFF "echo off".toList = ⟨0, 0x07, none⟩ :=
  (echo_off_masks_flags consts0 0xFF (by decide)).1.trans (by decide)

/-- C17 (counterexample): "config" without an argument, or with a word that is
neither on nor off, and "set gauge" without a value do not give the argument
error `CLI_EARG` (-1 with these constants): `cli_proc` returns 0. -/
theorem config_argument_counterexample :
    consts0.CLI_EARG = -1 ∧
    cli_proc consts0 0x01 "config".toList = ⟨0, 0x01, none⟩ ∧
    cli_proc consts0 0x01 "config maybe".toList = ⟨0, 0x01, none⟩ ∧
    cli_proc consts0 0x80 "set gauge".toList = ⟨0, 0x80, some 0⟩ := by
  decide

/-- C17 (amended): for a command line that fits the command buffer: `print`
with an argument other than `history`, `set` with a first word other than
`gauge`, and `echo` with a non-empty argument whose first word is not `off`
and either is none of `rht`, `thist`, `verbose` or is not followed by `on` or
`off`, return `CLI_EARG` and leave `flags` unchanged.  A command word that is
none of `help`, `config`, `status`, `print`, `set`, `echo`, `mem` returns
`CLI_ENOTSUP` and leaves `flags` unchanged, and the two results differ.
`config` with an argument other than `on` and `off` returns 0 and leaves
`flags` unchanged, and so does `set gauge` whatever follows it. -/
theorem cli_argument_errors (k : CodedConsts) (flags : Nat) (buf : List Char)
    (hfit : buf.length ≤ k.CMD_LEN) :
    ((get_arg buf).1 = "print".toList → (get_arg buf).2 ≠ "history".toList →
      cli_proc k.toConsts flags buf = ⟨k.CLI_EARG, flags, none⟩ ∧
      (cli_proc k.toConsts flags buf).ret ≠ k.CLI_ENOTSUP) ∧
    ((get_arg buf).1 = "set".toList → (get_arg (get_arg buf).2).1 ≠ "gauge".toList →
      cli_proc k.toConsts flags buf = ⟨k.CLI_EARG, flags, none⟩ ∧
      (cli_proc k.toConsts flags buf).ret ≠ k.CLI_ENOTSUP) ∧
    ((get_arg buf).1 = "echo".toList → (get_arg buf).2 ≠ [] →
      (get_arg (get_arg buf).2).1 ≠ "off".toList →
      (((get_arg (get_arg buf).2).1 ≠ "rht".toList ∧
        (get_arg (get_arg buf).2).1 ≠ "thist".toList ∧
        (get_arg (get_arg buf).2).1 ≠ "verbose".toList) ∨
       ((get_arg (get_arg buf).2).2 ≠ "on".toList ∧
        (get_arg (get_arg buf).2).2 ≠ "off".toList)) →
      cli_proc k.toConsts flags buf = ⟨k.CLI_EARG, flags, none⟩ ∧
      (cli_proc k.toConsts flags buf).ret ≠ k.CLI_ENOTSUP) ∧
    ((get_arg buf).1 ≠ "help".toList → (get_arg buf).1 ≠ "config".toList →
      (get_arg buf).1 ≠ "status".toList → (get_arg buf).1 ≠ "print".toList →
      (get_arg buf).1 ≠ "set".toList → (get_arg buf).1 ≠ "echo".toList →
      (get_arg buf).1 ≠ "mem".toList →
      cli_proc k.toConsts flags buf = ⟨k.CLI_ENOTSUP, flags, none⟩ ∧
      (cli_proc k.toConsts flags buf).ret ≠ k.CLI_EARG) ∧
    ((get_arg buf).1 = "config".toList → (get_arg buf).2 ≠ "on".toList →
      (get_arg buf).2 ≠ "off".toList →
      cli_proc k.toConsts flags buf = ⟨0, flags, none⟩) ∧
    ((get_arg buf).1 = "set".toList → (get_arg (get_arg buf).2).1 = "gauge".toList →
      (cli_proc k.toConsts flags buf).ret = 0 ∧
      (cli_proc k.toConsts flags buf).flags = flags) := by
  have hret : ∀ r : Result, r = ⟨k.CLI_EARG, flags, none⟩ →
      r = ⟨k.CLI_EARG, flags, none⟩ ∧ r.ret ≠ k.CLI_ENOTSUP := by
    intro r hr
    exact ⟨hr, by rw [hr]; exact k.distinct⟩
  have hfit2 : buf.length ≤ k.toConsts.CMD_LEN := hfit
  refine ⟨?_, ?_, ?_, ?_, ?_, ?_⟩
  · intro hc ha
    apply hret
    unfold cli_proc
    rw [take_fits k.toConsts buf hfit2]
    simp +decide [str_is, hc] at ha ⊢
    intro h
    exact absurd h ha
  · intro hc ha
    apply hret
    unfold cli_proc
    rw [take_fits k.toConsts buf hfit2]
    simp +decide [str_is, hc] at ha ⊢
    intro h
    exact absurd h ha
  · intro hc hne hoff hbad
    apply hret
    unfold cli_proc
    rw [take_fits k.toConsts buf hfit2]
    simp +decide [str_is, hc, hne] at hoff hbad ⊢
    rw [if_neg hoff]
    rcases hbad with ⟨h1, h2, h3⟩ | ⟨h1, h2⟩
    · simp [h1, h2, h3]
    · simp [h1, h2]
  · intro h1 h2 h3 h4 h5 h6 h7
    have hr : cli_proc k.toConsts flags buf = ⟨k.CLI_ENOTSUP, flags, none⟩ := by
      unfold cli_proc
      rw [take_fits k.toConsts buf hfit2]
      simp +decide [str_is] at h1 h2 h3 h4 h5 h6 h7 ⊢
      simp [h1, h2, h3, h4, h5, h6, h7]
    exact ⟨hr, by rw [hr]; exact fun h => k.distinct h.symm⟩
  · intro hc h1 h2
    unfold cli_proc
    rw [take_fits k.toConsts buf hfit2]
    simp +decide [str_is, hc] at h1 h2 ⊢
    simp [h1, h2]
  · intro hc ha
    unfold cli_proc
    rw [take_fits k.toConsts buf hfit2]
    simp +decide [str_is, hc] at ha ⊢
    rw [if_pos ha]
    by_cases hcm : flags &&& k.CONFIG_MODE = 0
    · simp [hcm]
    · simp [hcm]

theorem cli_argument_errors_witness :
    cli_proc consts0 0x05 "echo rht maybe".toList = ⟨-1, 0x05, none⟩ ∧
    cli_proc consts0 0x05 "print all".toList = ⟨-1, 0x05, none⟩ ∧
    cli_proc consts0 0x05 "reboot now".toList = ⟨-2, 0x05, none⟩ :=
  ⟨(((cli_argument_errors consts0c 0x05 "echo rht maybe".toList (by decide)).2.2.1
      (by decide) (by decide) (by decide) (Or.inr (by decide))).1).trans (by decide),
   (((cli_argument_errors consts0c 0x05 "print all".toList (by decide)).1
      (by decide) (by decide)).1).trans (by decide),
   (((cli_argument_errors consts0c 0x05 "reboot now".toList (by decide)).2.2.2.1
      (by decide) (by decide) (by decide) (by decide) (by decide) (by decide)
      (by decide)).1).trans (by decide)⟩

end CLI
